import Mathlib

/-!
# treeforest/cdn — the tiered blob store of `main.go`

A shallow embedding of the four HTTP handlers of `main.go` (`UploadHandler`,
`DownloadHandler`, `DeleteHandler`, the `GET /all` closure) and of `delivery`,
over explicit models of the two collaborators they call:

* `DB` stands for the `*leveldb.DB` handle `LevelDB`: a finite map from key to
  blob whose iterator walks the keys in ascending bytewise order;
* `BigCache` stands for the `*bigcache.BigCache` handle `Cache`: a finite map
  from key to blob whose entries may disappear at any time.

Handlers are state transformers `State → State × Response`.  Every call of a
collaborator that returns a Go `error` takes a `Faults` record saying which of
the calls fail, so that the error branches of the handlers are part of the
model.  Keys are Lean strings (valid UTF-8, on which bytewise comparison and
code-point comparison agree); blobs are byte lists.
-/

namespace Cdn

/-! ## Data model -/

/-- A blob: the bytes of an uploaded file. -/
abbrev Blob := List UInt8

/-- Bytewise key order of the durable store (goleveldb's default comparer). -/
def keyLt (a b : String) : Prop := a.toList < b.toList

instance keyLtDecidable : DecidableRel keyLt :=
  fun a b => inferInstanceAs (Decidable (a.toList < b.toList))

/-- First record stored under `k` in an association list. -/
def lookupKV (k : String) : List (String × Blob) → Option Blob
  | [] => none
  | (k', v) :: t => if k = k' then some v else lookupKV k t

/-- Store `(k, v)` at its place in a key-ordered list, replacing a record of `k`. -/
def insertKV (k : String) (v : Blob) : List (String × Blob) → List (String × Blob)
  | [] => [(k, v)]
  | (k', v') :: t =>
    if k = k' then (k, v) :: t
    else if keyLt k k' then (k, v) :: (k', v') :: t
    else (k', v') :: insertKV k v t

/-- Drop every record stored under `k`. -/
def eraseKV (k : String) : List (String × Blob) → List (String × Blob)
  | [] => []
  | (k', v) :: t => if k' = k then eraseKV k t else (k', v) :: eraseKV k t

/-- Keys of a record list are strictly ascending. -/
def KeysAscending (l : List (String × Blob)) : Prop :=
  (l.map Prod.fst).Pairwise keyLt

theorem keyLt_trans {a b c : String} (h₁ : keyLt a b) (h₂ : keyLt b c) : keyLt a c :=
  @lt_trans (List Char) _ _ _ _ h₁ h₂

theorem keyLt_irrefl (a : String) : ¬ keyLt a a :=
  @lt_irrefl (List Char) _ a.toList

theorem keyLt_of_not {a b : String} (hne : a ≠ b) (h : ¬ keyLt a b) : keyLt b a := by
  rcases lt_trichotomy a.toList b.toList with h' | h' | h'
  · exact absurd h' h
  · exact absurd (String.ext h') hne
  · exact h'

theorem fst_mem_insertKV {k : String} {v : Blob} {l : List (String × Blob)} {x : String}
    (hx : x ∈ (insertKV k v l).map Prod.fst) : x = k ∨ x ∈ l.map Prod.fst := by
  induction l with
  | nil => simpa [insertKV] using hx
  | cons e t ih =>
    obtain ⟨k', v'⟩ := e
    unfold insertKV at hx
    split_ifs at hx with h1 h2
    · simp only [List.map_cons, List.mem_cons] at hx ⊢
      rcases hx with hx | hx
      · exact Or.inl hx
      · exact Or.inr (Or.inr hx)
    · simp only [List.map_cons, List.mem_cons] at hx ⊢
      exact hx
    · simp only [List.map_cons, List.mem_cons] at hx ⊢
      rcases hx with hx | hx
      · exact Or.inr (Or.inl hx)
      · rcases ih hx with h | h
        · exact Or.inl h
        · exact Or.inr (Or.inr h)

theorem keysAscending_insertKV (k : String) (v : Blob) {l : List (String × Blob)}
    (h : KeysAscending l) : KeysAscending (insertKV k v l) := by
  induction l with
  | nil => simp [insertKV, KeysAscending]
  | cons e t ih =>
    obtain ⟨k', v'⟩ := e
    unfold KeysAscending at h ih ⊢
    simp only [List.map_cons, List.pairwise_cons] at h
    unfold insertKV
    split_ifs with h1 h2
    · subst h1
      simpa only [List.map_cons, List.pairwise_cons] using h
    · simp only [List.map_cons, List.pairwise_cons]
      refine ⟨?_, h⟩
      intro x hx
      rcases List.mem_cons.1 hx with hx | hx
      · exact hx ▸ h2
      · exact keyLt_trans h2 (h.1 x hx)
    · simp only [List.map_cons, List.pairwise_cons]
      refine ⟨?_, ih h.2⟩
      intro x hx
      rcases fst_mem_insertKV hx with hx | hx
      · exact hx ▸ keyLt_of_not h1 h2
      · exact h.1 x hx

theorem eraseKV_sublist (k : String) (l : List (String × Blob)) :
    (eraseKV k l).Sublist l := by
  induction l with
  | nil => simp [eraseKV]
  | cons e t ih =>
    obtain ⟨k', v'⟩ := e
    unfold eraseKV
    split_ifs with h
    · exact List.Sublist.cons _ ih
    · exact List.Sublist.cons₂ _ ih

theorem keysAscending_eraseKV (k : String) {l : List (String × Blob)}
    (h : KeysAscending l) : KeysAscending (eraseKV k l) :=
  List.Pairwise.sublist ((eraseKV_sublist k l).map Prod.fst) h

/-- The durable store behind `LevelDB`: records kept in ascending key order, one per key. -/
structure DB where
  /-- The records, in iteration order. -/
  entries : List (String × Blob)
  /-- Iteration order is ascending key order. -/
  ascending : KeysAscending entries

/-- The store of a freshly created database directory. -/
def DB.empty : DB := ⟨[], List.Pairwise.nil⟩

/-- The record of `k`, if any. -/
def DB.lookup (db : DB) (k : String) : Option Blob := lookupKV k db.entries

/-- The store after writing `(k, v)`: an existing record of `k` is overwritten. -/
def DB.insert (db : DB) (k : String) (v : Blob) : DB :=
  ⟨insertKV k v db.entries, keysAscending_insertKV k v db.ascending⟩

/-- The store after removing the record of `k`. -/
def DB.erase (db : DB) (k : String) : DB :=
  ⟨eraseKV k db.entries, keysAscending_eraseKV k db.ascending⟩

/-! ## The cache and the faults of the collaborators -/

/-- The in-memory cache behind `Cache`: the entries currently held. -/
structure BigCache where
  /-- The entries held, most recently set first. -/
  entries : List (String × Blob)
deriving DecidableEq

/-- The cache right after `bigcache.NewBigCache`. -/
def BigCache.empty : BigCache := ⟨[]⟩

/-- The entry of `k`, if held. -/
def BigCache.lookup (c : BigCache) (k : String) : Option Blob := lookupKV k c.entries

/-- The cache without an entry for `k` (explicit delete, expiry or eviction). -/
def BigCache.erase (c : BigCache) (k : String) : BigCache := ⟨eraseKV k c.entries⟩

/-- Which collaborator calls of one handler invocation fail with an error. -/
structure Faults where
  /-- `Cache.Get` fails with an error other than `ErrEntryNotFound`. -/
  cacheGet : Bool := false
  /-- `Cache.Set` rejects the entry. -/
  cacheSet : Bool := false
  /-- `Cache.Delete` fails and removes nothing. -/
  cacheDelete : Bool := false
  /-- `LevelDB.Has` fails. -/
  dbHas : Bool := false
  /-- `LevelDB.Put` fails and writes nothing. -/
  dbPut : Bool := false
  /-- `LevelDB.Get` fails with an error other than `ErrNotFound`. -/
  dbGet : Bool := false
  /-- `LevelDB.Delete` fails and removes nothing. -/
  dbDelete : Bool := false
deriving DecidableEq

/-- Errors returned by the cache. -/
inductive CacheErr
  | ErrEntryNotFound
  | internal
deriving DecidableEq

/-- Errors returned by the durable store. -/
inductive DBErr
  | ErrNotFound
  | io
deriving DecidableEq

/-- Model of `Cache.Get(key)`. -/
def BigCache.Get (c : BigCache) (f : Faults) (key : String) : Except CacheErr Blob :=
  if f.cacheGet then .error .internal
  else match c.lookup key with
    | some entry => .ok entry
    | none => .error .ErrEntryNotFound

/-- Model of `Cache.Set(key, entry)`: the new cache and the returned error. -/
def BigCache.Set (c : BigCache) (f : Faults) (key : String) (entry : Blob) :
    BigCache × Option CacheErr :=
  if f.cacheSet then (c, some .internal)
  else (⟨(key, entry) :: (c.erase key).entries⟩, none)

/-- Model of `Cache.Delete(key)`: the new cache and the returned error. -/
def BigCache.Delete (c : BigCache) (f : Faults) (key : String) : BigCache × Option CacheErr :=
  if f.cacheDelete then (c, some .internal)
  else match c.lookup key with
    | some _ => (c.erase key, none)
    | none => (c, some .ErrEntryNotFound)

/-- Model of `LevelDB.Has(key, nil)`: the flag and the returned error. -/
def DB.Has (db : DB) (f : Faults) (key : String) : Bool × Option DBErr :=
  if f.dbHas then (false, some .io) else ((db.lookup key).isSome, none)

/-- Model of `LevelDB.Put(key, value, nil)`: the new store and the returned error. -/
def DB.Put (db : DB) (f : Faults) (key : String) (value : Blob) : DB × Option DBErr :=
  if f.dbPut then (db, some .io) else (db.insert key value, none)

/-- Model of `LevelDB.Get(key, nil)`. -/
def DB.Get (db : DB) (f : Faults) (key : String) : Except DBErr Blob :=
  if f.dbGet then .error .io
  else match db.lookup key with
    | some value => .ok value
    | none => .error .ErrNotFound

/-- Model of `LevelDB.Delete(key, nil)`: the new store and the returned error. -/
def DB.Delete (db : DB) (f : Faults) (key : String) : DB × Option DBErr :=
  if f.dbDelete then (db, some .io) else (db.erase key, none)

/-- The two process-wide handles of `main.go`. -/
structure State where
  /-- The durable store. -/
  LevelDB : DB
  /-- The cache in front of it. -/
  Cache : BigCache

/-- Both tiers empty. -/
def State.empty : State := ⟨DB.empty, BigCache.empty⟩

/-- The `gin.H` bodies the handlers send. -/
structure H where
  /-- The `"code"` field. -/
  code : Int
  /-- The `"error"` field. -/
  error : Option String := none
  /-- The `"message"` field. -/
  message : Option String := none
  /-- The `"files"` field. -/
  files : Option (List String) := none
deriving DecidableEq

/-- What a handler writes to the client. -/
inductive Response
  /-- `c.JSON(status, body)`. -/
  | JSON (status : Nat) (body : H)
  /-- A raw body with headers, as written by `delivery`. -/
  | Data (status : Nat) (headers : List (String × String)) (content : Blob)
  /-- A run-time panic (index out of range). -/
  | panic
deriving DecidableEq

/-- The bytes of a raw response. -/
def Response.content? : Response → Option Blob
  | .Data _ _ content => some content
  | _ => none

/-- The value of a header of a raw response. -/
def Response.header? (name : String) : Response → Option String
  | .Data _ headers _ => headers.lookup name
  | _ => none

/-! ## `delivery` -/

/-- The loop of `strings.Split(s, sep)` for a separator of one character: `cur` holds,
reversed, the characters read since the last separator. -/
def splitLoop (sep : Char) (cur : List Char) : List Char → List (List Char)
  | [] => [cur.reverse]
  | c :: cs =>
    if c = sep then cur.reverse :: splitLoop sep [] cs
    else splitLoop sep (c :: cur) cs

/-- Model of `strings.Split(s, sep)` for a separator of one character: the pieces of `s`
between the separators, in order. -/
def strings.Split (s : String) (sep : Char) : List String :=
  (splitLoop sep [] s.toList).map String.mk

/-- The digit table `upperhex` of `net/url`. -/
def upperhex (n : Nat) : Char := "0123456789ABCDEF".toList.getD n '0'

/-- Model of `shouldEscape(c, encodeQueryComponent)` of `net/url` on a byte value. -/
def shouldEscape (c : Nat) : Bool :=
  !(decide (97 ≤ c ∧ c ≤ 122) || decide (65 ≤ c ∧ c ≤ 90) || decide (48 ≤ c ∧ c ≤ 57)
    || c == 45 || c == 95 || c == 46 || c == 126)

/-- Model of `url.QueryEscape(s)`, byte by byte over the UTF-8 encoding of `s`. -/
def QueryEscape (s : String) : String :=
  String.mk (s.toUTF8.toList.flatMap fun b =>
    if b.toNat = 32 then ['+']
    else if shouldEscape b.toNat then ['%', upperhex (b.toNat / 16), upperhex (b.toNat % 16)]
    else [Char.ofNat b.toNat])

/-- Model of `delivery(c, filename, content)`: the response written to the client. -/
def delivery (filename : String) (content : Blob) : Response :=
  let s := strings.Split filename '.'
  match s[s.length - 1]? with
  | none => .panic
  | some fileType =>
    let contentType :=
      match fileType with
      | "jpg" => "image/jpeg"
      | "png" => "image/png"
      | "img" => "application/x-img"
      | "jpe" => "image/jpeg"
      | "jpeg" => "image/jpeg"
      | "gif" => "image/gif"
      | "txt" => "text/plain"
      | "zip" => "application/zip"
      | "pbf" => "application/pdf"
      | "word" => "application/msword"
      | _ => "application/octet-stream"
    .Data 200
      [("Content-Disposition", "attachment; filename=\"" ++ QueryEscape filename ++ "\""),
       ("Content-Type", contentType),
       ("Accept-Length", toString content.length),
       ("Filename", filename)]
      content

/-! ## The handlers -/

/-- The `*multipart.FileHeader` returned by `c.FormFile("file")`. -/
structure FileHeader where
  /-- The `Filename` field. -/
  Filename : String
  /-- The bytes of the uploaded part. -/
  data : Blob
  /-- The error of `fileHeader.Open()`, if it fails. -/
  openErr : Option String := none

/-- The `Size` field: the length of the uploaded part. -/
def FileHeader.Size (fh : FileHeader) : Int := fh.data.length

/-- Model of `fileHeader.Open()` followed by `ioutil.ReadAll(file)`. -/
def FileHeader.Open (fh : FileHeader) : Except String Blob :=
  match fh.openErr with
  | some err => .error err
  | none => .ok fh.data

/-- Model of `UploadHandler`; `form` is the result of `c.FormFile("file")`. -/
def UploadHandler (f : Faults) (s : State) (form : Except String FileHeader) :
    State × Response :=
  match form with
  | .error _ => (s, .JSON 400 { code := -1, error := some "param error" })
  | .ok fileHeader =>
    if fileHeader.Size > 1024 * 1024 * 10 then
      (s, .JSON 400 { code := -1, error := some "file size exceeds 10MB" })
    else
      match fileHeader.Open with
      | .error err => (s, .JSON 400 { code := -1, error := some err })
      | .ok data =>
        let filename := fileHeader.Filename
        let exist := (s.LevelDB.Has f filename).1
        if exist then
          (s, .JSON 200 { code := -1, error := some "filename already exist" })
        else
          let db := (s.LevelDB.Put f filename data).1
          (⟨db, s.Cache⟩, .JSON 200 { code := 0 })

/-- Model of `DeleteHandler`; `filename` is `c.Param("filename")`. -/
def DeleteHandler (f : Faults) (s : State) (filename : String) : State × Response :=
  if filename = "" then
    (s, .JSON 400 { code := -1, error := some "filename is null" })
  else
    let cache := (s.Cache.Delete f filename).1
    let db := (s.LevelDB.Delete f filename).1
    (⟨db, cache⟩, .JSON 200 { code := 0 })

/-- Model of `DownloadHandler`; `filename` is `c.Param("filename")`. -/
def DownloadHandler (f : Faults) (s : State) (filename : String) : State × Response :=
  if filename = "" then
    (s, .JSON 400 { code := -1, error := some "filename is null" })
  else
    match s.Cache.Get f filename with
    | .ok data => (s, delivery filename data)
    | .error err =>
      if err ≠ .ErrEntryNotFound then
        (s, .JSON 500 { code := -2, error := some "cache error" })
      else
        match s.LevelDB.Get f filename with
        | .error err =>
          if err ≠ .ErrNotFound then
            (s, .JSON 500 { code := -3, error := some "db error" })
          else
            (s, .JSON 200 { code := 1, message := some "not found" })
        | .ok data =>
          (⟨s.LevelDB, (s.Cache.Set f filename data).1⟩, delivery filename data)

/-- The loop `for iter.Next()` of the `GET /all` closure over the records of a snapshot. -/
def scanLoop : List (String × Blob) → List String → List String
  | [], files => files
  | (key, _) :: rest, files => scanLoop rest (files ++ [key])

/-- Model of the `GET /all` closure of `main`. -/
def allHandler (s : State) : State × Response :=
  (s, .JSON 200 { code := 0, files := some (scanLoop s.LevelDB.entries []) })

/-! ## Sequential executions -/

/-- One step of a sequential execution with both stores answering without IO error. -/
inductive Op
  /-- A `POST /upload` request whose `c.FormFile("file")` gives `form`. -/
  | upload (form : Except String FileHeader)
  /-- A `GET /download/:filename` request; `setRejected` says whether `Cache.Set`
  refuses the entry. -/
  | download (filename : String) (setRejected : Bool)
  /-- A `POST /delete/:filename` request. -/
  | delete (filename : String)
  /-- A `GET /all` request. -/
  | all
  /-- The cache drops its entry for `key` (expiry or eviction). -/
  | evict (key : String)

/-- The faults of a healthy call: none, except that `Cache.Set` may refuse the entry. -/
def healthy (setRejected : Bool) : Faults := { cacheSet := setRejected }

/-- The state after one step. -/
def Op.exec (s : State) : Op → State
  | .upload form => (UploadHandler (healthy false) s form).1
  | .download filename setRejected => (DownloadHandler (healthy setRejected) s filename).1
  | .delete filename => (DeleteHandler (healthy false) s filename).1
  | .all => (allHandler s).1
  | .evict key => ⟨s.LevelDB, s.Cache.erase key⟩

/-- The state after a sequence of steps. -/
def runOps (s : State) (ops : List Op) : State := ops.foldl Op.exec s

/-- States reachable from the two empty stores by a sequential execution. -/
def Reachable (s : State) : Prop := ∃ ops : List Op, s = runOps State.empty ops

/-- The upload request carrying file `filename` with bytes `data`. -/
def fileForm (filename : String) (data : Blob) : Except String FileHeader :=
  .ok { Filename := filename, data := data }

/-! ## Specification-side vocabulary -/

/-- The labels of the claim about `delivery`, each with the Content-Type it is given. -/
def labelTable : List (String × String) :=
  [("jpg", "image/jpeg"), ("jpe", "image/jpeg"), ("jpeg", "image/jpeg"),
   ("png", "image/png"), ("img", "application/x-img"), ("gif", "image/gif"),
   ("txt", "text/plain"), ("zip", "application/zip"), ("pbf", "application/pdf"),
   ("word", "application/msword")]

/-- The Content-Type the claim gives a text: the one listed for it, else
`application/octet-stream`. -/
def labelContentType (t : String) : String :=
  (labelTable.lookup t).getD "application/octet-stream"

/-- The text `t` is what follows the last `.` of `filename`, or all of `filename` when
it has no `.`. -/
def IsFileType (filename t : String) : Prop :=
  (∃ pre : String, filename = pre ++ "." ++ t ∧ '.' ∉ t.toList) ∨
  ('.' ∉ filename.toList ∧ t = filename)

theorem DB.ext {a b : DB} (h : a.entries = b.entries) : a = b := by
  cases a; cases b; cases h; rfl

instance DB.instDecidableEq : DecidableEq DB := fun a b =>
  decidable_of_iff (a.entries = b.entries) ⟨DB.ext, fun h => h ▸ rfl⟩

instance State.instDecidableEq : DecidableEq State := fun a b =>
  decidable_of_iff (a.LevelDB = b.LevelDB ∧ a.Cache = b.Cache)
    ⟨fun h => by cases a; cases b; cases h.1; cases h.2; rfl, fun h => h ▸ ⟨rfl, rfl⟩⟩

/-- Every cache entry is backed by a durable record with the same bytes. -/
def Agree (s : State) : Prop :=
  ∀ k b, s.Cache.lookup k = some b → s.LevelDB.lookup k = some b

/-- A blob of 10*1024*1024+1 zero bytes, one byte above the bound of `UploadHandler`. -/
def oversizedBlob : Blob := List.replicate (10 * 1024 * 1024 + 1) 0

/-- The state after `UploadHandler(k, b)` followed by one `DownloadHandler(k)` per entry of
`rs`, each entry saying whether `Cache.Set` refuses the entry. -/
def uploadThenDownloads (s : State) (k : String) (b : Blob) (rs : List Bool) : State :=
  runOps (UploadHandler (healthy false) s (fileForm k b)).1 (rs.map (Op.download k))

/-! ## Concurrent uploads of one key

`UploadHandler` calls the durable store twice, `LevelDB.Has` and then `LevelDB.Put`; each of
the two calls is atomic, and calls of other requests may run between them.  A request is
followed here through two steps: the size guard with `LevelDB.Has`, then `LevelDB.Put`. -/

/-- The answer of `UploadHandler` after a successful `Put`. -/
def okResponse : Response := .JSON 200 { code := 0 }

/-- The answer of `UploadHandler` when `Has` reports a record. -/
def existsResponse : Response :=
  .JSON 200 { code := -1, error := some "filename already exist" }

/-- The answer of `UploadHandler` to a file above the size bound. -/
def tooLargeResponse : Response :=
  .JSON 400 { code := -1, error := some "file size exceeds 10MB" }

/-- How far one `UploadHandler` call has got. -/
inductive Phase
  /-- Before `LevelDB.Has`. -/
  | start
  /-- `LevelDB.Has` has answered false; `LevelDB.Put` is still to come. -/
  | checked
  /-- The call has answered. -/
  | done (r : Response)
deriving DecidableEq

/-- One `UploadHandler` call in flight: its bytes and how far it has got. -/
structure Call where
  /-- The bytes read from the uploaded file. -/
  data : Blob
  /-- How far the call has got. -/
  phase : Phase
deriving DecidableEq

/-- The next step of an `UploadHandler` call for key `k`: from the start, the size guard
and, for a file within the bound, `LevelDB.Has` with the answer it leads to; after the
check, `LevelDB.Put` and the answer. -/
def Call.step (k : String) (db : DB) (c : Call) : DB × Call :=
  match c.phase with
  | .start =>
    if (c.data.length : Int) > 1024 * 1024 * 10 then
      (db, ⟨c.data, .done (.JSON 400 { code := -1, error := some "file size exceeds 10MB" })⟩)
    else if (db.Has (healthy false) k).1 then
      (db, ⟨c.data, .done (.JSON 200 { code := -1, error := some "filename already exist" })⟩)
    else
      (db, ⟨c.data, .checked⟩)
  | .checked =>
    ((db.Put (healthy false) k c.data).1, ⟨c.data, .done (.JSON 200 { code := 0 })⟩)
  | .done _ => (db, c)

/-- The durable store together with the `UploadHandler` calls in flight for one key. -/
structure Sys where
  /-- The durable store. -/
  db : DB
  /-- The calls, by request number. -/
  calls : List Call

/-- `N` requests for the same key, none of them started. -/
def Sys.init (db : DB) (blobs : List Blob) : Sys :=
  ⟨db, blobs.map fun b => ⟨b, .start⟩⟩

/-- Request `i` performs its next step. -/
def Sys.step (k : String) (sys : Sys) (i : Nat) : Sys :=
  match sys.calls[i]? with
  | none => sys
  | some c => ⟨(c.step k sys.db).1, sys.calls.set i (c.step k sys.db).2⟩

/-- The system after the steps of a schedule, a list of request numbers. -/
def runSchedule (k : String) (sys : Sys) (sched : List Nat) : Sys :=
  sched.foldl (Sys.step k) sys

/-- Every call has answered. -/
def Sys.allDone (sys : Sys) : Bool :=
  sys.calls.all fun c =>
    match c.phase with
    | .done _ => true
    | _ => false

/-- The answers given so far, by request number. -/
def Sys.responses (sys : Sys) : List (Option Response) :=
  sys.calls.map fun c =>
    match c.phase with
    | .done r => some r
    | _ => none

/-- The schedule that runs the requests of `order` one after another: both steps of a
request, then both steps of the next. -/
def serial (order : List Nat) : List Nat := order.flatMap fun i => [i, i]

/-- What every interleaving keeps true. -/
structure Sys.Inv (k : String) (blobs : List Blob) (sys : Sys) : Prop where
  /-- The calls carry the blobs of the requests. -/
  data : ∀ j : Nat, (sys.calls[j]?).map Call.data = blobs[j]?
  /-- Every blob is within the size bound of `UploadHandler`. -/
  sized : ∀ (j : Nat) (c : Call), sys.calls[j]? = some c → c.data.length ≤ 10 * 1024 * 1024
  /-- A call that has answered has answered success or already-exists. -/
  phases : ∀ (j : Nat) (c : Call), sys.calls[j]? = some c →
    c.phase = .start ∨ c.phase = .checked ∨ c.phase = .done okResponse ∨
      c.phase = .done existsResponse
  /-- Once a call has answered, the store holds a record. -/
  done_stored : ∀ (j : Nat) (c : Call) (r : Response), sys.calls[j]? = some c →
    c.phase = .done r →
    ∃ v, sys.db.lookup k = some v
  /-- The stored record is the blob of a call that answered success. -/
  stored_ok : ∀ v, sys.db.lookup k = some v →
    ∃ (j : Nat) (c : Call), sys.calls[j]? = some c ∧ c.phase = .done okResponse ∧ c.data = v

/-- Request `i` runs both of its steps with no step of another request in between. -/
def Sys.call (k : String) (sys : Sys) (i : Nat) : Sys := (sys.step k i).step k i

/-- What holds between the calls of a serial schedule, on top of `Sys.Inv`. -/
structure Sys.Quiet (k : String) (blobs : List Blob) (sys : Sys) : Prop where
  /-- The invariant of all interleavings. -/
  inv : Sys.Inv k blobs sys
  /-- No call is between its check and its write. -/
  no_checked : ∀ (j : Nat) (c : Call), sys.calls[j]? = some c → c.phase ≠ .checked
  /-- At most one call has answered success. -/
  unique_ok : ∀ (j j' : Nat) (c c' : Call), sys.calls[j]? = some c → sys.calls[j']? = some c' →
    c.phase = .done okResponse → c'.phase = .done okResponse → j = j'

/-! ## Facts about `strings.Split` and `delivery` -/

theorem splitLoop_no_sep (sep : Char) (cur l : List Char) (h : sep ∉ l) :
    splitLoop sep cur l = [cur.reverse ++ l] := by
  induction l generalizing cur with
  | nil => simp [splitLoop]
  | cons c cs ih =>
    have hc : c ≠ sep := fun e => h (e ▸ List.mem_cons_self _ _)
    have hcs : sep ∉ cs := fun e => h (List.mem_cons_of_mem _ e)
    simp [splitLoop, hc, ih _ hcs]

theorem getLast?_cons_of_getLast? {α : Type} (x : α) {l : List α} {y : α}
    (h : l.getLast? = some y) : (x :: l).getLast? = some y := by
  cases l with
  | nil => simp at h
  | cons a t => simpa [List.getLast?_cons_cons] using h

theorem getLast?_splitLoop (sep : Char) (cur pre suf : List Char) (h : sep ∉ suf) :
    (splitLoop sep cur (pre ++ sep :: suf)).getLast? = some suf := by
  induction pre generalizing cur with
  | nil => simp [splitLoop, splitLoop_no_sep sep [] suf h]
  | cons c p ih =>
    by_cases hc : c = sep
    · simp only [List.cons_append, splitLoop, hc, if_true]
      exact getLast?_cons_of_getLast? _ (ih [])
    · simp only [List.cons_append, splitLoop, hc, if_false]
      exact ih (c :: cur)

theorem splitLoop_ne_nil (sep : Char) (cur l : List Char) : splitLoop sep cur l ≠ [] := by
  induction l generalizing cur with
  | nil => simp [splitLoop]
  | cons c cs ih =>
    by_cases hc : c = sep
    · simp [splitLoop, hc]
    · simpa [splitLoop, hc] using ih (c :: cur)

theorem split_length_pos (filename : String) : 0 < (strings.Split filename '.').length := by
  unfold strings.Split
  rw [List.length_map]
  exact List.length_pos.2 (splitLoop_ne_nil _ _ _)

theorem mem_split_or (l : List Char) :
    '.' ∉ l ∨ ∃ pre suf, l = pre ++ '.' :: suf ∧ '.' ∉ suf := by
  induction l with
  | nil => exact Or.inl (by simp)
  | cons c cs ih =>
    rcases ih with h | ⟨pre, suf, h, hs⟩
    · by_cases hc : c = '.'
      · exact Or.inr ⟨[], cs, by simp [hc], h⟩
      · exact Or.inl (by simp [h, Ne.symm hc])
    · exact Or.inr ⟨c :: pre, suf, by simp [h], hs⟩

theorem split_last_of_isFileType {filename t : String} (h : IsFileType filename t) :
    (strings.Split filename '.')[(strings.Split filename '.').length - 1]? = some t := by
  rw [← List.getLast?_eq_getElem?]
  unfold strings.Split
  rw [List.getLast?_map]
  rcases h with ⟨pre, hf, hs⟩ | ⟨hs, ht⟩
  · have hl : filename.toList = pre.toList ++ '.' :: t.toList := by
      subst hf
      simp [String.toList, String.data_append]
    rw [hl, getLast?_splitLoop _ _ _ _ hs]
    rfl
  · subst ht
    rw [splitLoop_no_sep _ _ _ hs]
    rfl

theorem exists_isFileType (filename : String) : ∃ t, IsFileType filename t := by
  rcases mem_split_or filename.toList with h | ⟨pre, suf, h, hs⟩
  · exact ⟨filename, Or.inr ⟨h, rfl⟩⟩
  · refine ⟨String.mk suf, Or.inl ⟨String.mk pre, ?_, hs⟩⟩
    apply String.ext
    simpa [String.toList, String.data_append] using h

theorem delivery_eq {filename t : String} (h : IsFileType filename t) (content : Blob) :
    delivery filename content = .Data 200
      [("Content-Disposition", "attachment; filename=\"" ++ QueryEscape filename ++ "\""),
       ("Content-Type", labelContentType t),
       ("Accept-Length", toString content.length),
       ("Filename", filename)]
      content := by
  unfold delivery
  simp only [split_last_of_isFileType h]
  congr 3
  unfold labelContentType labelTable
  split <;> first | rfl | skip
  rename_i h1 h2 h3 h4 h5 h6 h7 h8 h9 h10
  simp only [List.lookup, beq_eq_false_iff_ne.2 h1, beq_eq_false_iff_ne.2 h2,
    beq_eq_false_iff_ne.2 h3, beq_eq_false_iff_ne.2 h4, beq_eq_false_iff_ne.2 h5,
    beq_eq_false_iff_ne.2 h6, beq_eq_false_iff_ne.2 h7, beq_eq_false_iff_ne.2 h8,
    beq_eq_false_iff_ne.2 h9, beq_eq_false_iff_ne.2 h10, Option.getD_none]

/-! ## Facts about the two stores -/

theorem lookupKV_insertKV_self (k : String) (v : Blob) (l : List (String × Blob)) :
    lookupKV k (insertKV k v l) = some v := by
  induction l with
  | nil => simp [insertKV, lookupKV]
  | cons e t ih =>
    obtain ⟨k', v'⟩ := e
    unfold insertKV
    split_ifs with h1 h2
    · simp [lookupKV]
    · simp [lookupKV]
    · simp [lookupKV, h1, ih]

theorem lookupKV_insertKV_ne {k x : String} (h : x ≠ k) (v : Blob) (l : List (String × Blob)) :
    lookupKV x (insertKV k v l) = lookupKV x l := by
  induction l with
  | nil => simp [insertKV, lookupKV, h]
  | cons e t ih =>
    obtain ⟨k', v'⟩ := e
    unfold insertKV
    split_ifs with h1 h2
    · subst h1
      simp [lookupKV, h]
    · simp [lookupKV, h]
    · simp [lookupKV, ih]

theorem lookupKV_eraseKV_self (k : String) (l : List (String × Blob)) :
    lookupKV k (eraseKV k l) = none := by
  induction l with
  | nil => simp [eraseKV, lookupKV]
  | cons e t ih =>
    obtain ⟨k', v'⟩ := e
    by_cases h : k' = k
    · simp [eraseKV, h, ih]
    · simp [eraseKV, h, lookupKV, Ne.symm h, ih]

theorem lookupKV_eraseKV_ne {k x : String} (h : x ≠ k) (l : List (String × Blob)) :
    lookupKV x (eraseKV k l) = lookupKV x l := by
  induction l with
  | nil => simp [eraseKV, lookupKV]
  | cons e t ih =>
    obtain ⟨k', v'⟩ := e
    by_cases h' : k' = k
    · subst h'
      simp [eraseKV, lookupKV, h, ih]
    · simp [eraseKV, h', lookupKV, ih]

theorem eraseKV_of_lookupKV_none {k : String} {l : List (String × Blob)}
    (h : lookupKV k l = none) : eraseKV k l = l := by
  induction l with
  | nil => simp [eraseKV]
  | cons e t ih =>
    obtain ⟨k', v'⟩ := e
    unfold lookupKV at h
    split_ifs at h with h1
    simp [eraseKV, Ne.symm h1, ih h]

theorem mem_keys_iff_lookupKV (k : String) (l : List (String × Blob)) :
    k ∈ l.map Prod.fst ↔ ∃ v, lookupKV k l = some v := by
  induction l with
  | nil => simp [lookupKV]
  | cons e t ih =>
    obtain ⟨k', v'⟩ := e
    by_cases h : k = k'
    · simp [lookupKV, h]
    · simp [lookupKV, h, ih]

theorem scanLoop_eq (l : List (String × Blob)) (files : List String) :
    scanLoop l files = files ++ l.map Prod.fst := by
  induction l generalizing files with
  | nil => simp [scanLoop]
  | cons e t ih =>
    obtain ⟨k', v'⟩ := e
    simp [scanLoop, ih]

theorem DB.keys_nodup (db : DB) : (db.entries.map Prod.fst).Nodup := by
  have h : (db.entries.map Prod.fst).Pairwise keyLt := db.ascending
  refine List.Pairwise.imp ?_ h
  intro a b hab e
  subst e
  exact keyLt_irrefl a hab

@[simp] theorem DB.lookup_empty (k : String) : DB.empty.lookup k = none := rfl

@[simp] theorem DB.lookup_insert_self (db : DB) (k : String) (v : Blob) :
    (db.insert k v).lookup k = some v := lookupKV_insertKV_self k v db.entries

theorem DB.lookup_insert_ne (db : DB) {k x : String} (h : x ≠ k) (v : Blob) :
    (db.insert k v).lookup x = db.lookup x := lookupKV_insertKV_ne h v db.entries

@[simp] theorem DB.lookup_erase_self (db : DB) (k : String) :
    (db.erase k).lookup k = none := lookupKV_eraseKV_self k db.entries

theorem DB.lookup_erase_ne (db : DB) {k x : String} (h : x ≠ k) :
    (db.erase k).lookup x = db.lookup x := lookupKV_eraseKV_ne h db.entries

theorem DB.erase_of_lookup_none {db : DB} {k : String} (h : db.lookup k = none) :
    db.erase k = db := DB.ext (eraseKV_of_lookupKV_none h)

@[simp] theorem BigCache.cache_lookup_empty (k : String) : BigCache.empty.lookup k = none := rfl

@[simp] theorem BigCache.cache_lookup_erase_self (c : BigCache) (k : String) :
    (c.erase k).lookup k = none := lookupKV_eraseKV_self k c.entries

theorem BigCache.cache_lookup_erase_ne (c : BigCache) {k x : String} (h : x ≠ k) :
    (c.erase k).lookup x = c.lookup x := lookupKV_eraseKV_ne h c.entries

theorem BigCache.cache_erase_of_lookup_none {c : BigCache} {k : String} (h : c.lookup k = none) :
    c.erase k = c := by
  cases c
  simp only [BigCache.erase, BigCache.mk.injEq]
  exact eraseKV_of_lookupKV_none h

theorem BigCache.lookup_set_self (c : BigCache) (k : String) (v : Blob) :
    (c.Set (healthy false) k v).1.lookup k = some v := by
  simp [BigCache.Set, healthy, BigCache.lookup, lookupKV]

theorem BigCache.lookup_set_ne (c : BigCache) {k x : String} (h : x ≠ k) (r : Bool) (v : Blob) :
    (c.Set (healthy r) k v).1.lookup x = c.lookup x := by
  cases r
  · simp only [BigCache.Set, healthy, BigCache.lookup, lookupKV, h, if_false]
    exact lookupKV_eraseKV_ne h c.entries
  · simp [BigCache.Set, healthy]

/-! ## The handlers on healthy stores -/

theorem UploadHandler_sized (f : Faults) (s : State) (k : String) (b : Blob)
    (hb : b.length ≤ 10 * 1024 * 1024) :
    UploadHandler f s (fileForm k b) =
      if (s.LevelDB.Has f k).1 then
        (s, .JSON 200 { code := -1, error := some "filename already exist" })
      else
        (⟨(s.LevelDB.Put f k b).1, s.Cache⟩, .JSON 200 { code := 0 }) := by
  have h : ¬ ((fileForm k b).toOption.map FileHeader.Size).getD 0 > 1024 * 1024 * 10 := by
    simp only [fileForm, Except.toOption, Option.map, Option.getD, FileHeader.Size]
    omega
  simp only [fileForm, Except.toOption, Option.map, Option.getD] at h
  simp only [UploadHandler, fileForm, if_neg h, FileHeader.Open]

theorem UploadHandler_fresh (s : State) (k : String) (b : Blob)
    (hb : b.length ≤ 10 * 1024 * 1024) (hk : s.LevelDB.lookup k = none) :
    UploadHandler (healthy false) s (fileForm k b) =
      (⟨s.LevelDB.insert k b, s.Cache⟩, .JSON 200 { code := 0 }) := by
  rw [UploadHandler_sized _ s k b hb]
  simp [DB.Has, DB.Put, healthy, hk]

theorem UploadHandler_exists (s : State) (k : String) (b v : Blob)
    (hb : b.length ≤ 10 * 1024 * 1024) (hk : s.LevelDB.lookup k = some v) :
    UploadHandler (healthy false) s (fileForm k b) =
      (s, .JSON 200 { code := -1, error := some "filename already exist" }) := by
  rw [UploadHandler_sized _ s k b hb]
  simp [DB.Has, healthy, hk]

theorem UploadHandler_oversized (f : Faults) (s : State) (k : String) (b : Blob)
    (hb : 10 * 1024 * 1024 < b.length) :
    UploadHandler f s (fileForm k b) =
      (s, .JSON 400 { code := -1, error := some "file size exceeds 10MB" }) := by
  have h : FileHeader.Size { Filename := k, data := b } > 1024 * 1024 * 10 := by
    simp only [FileHeader.Size]
    omega
  simp only [UploadHandler, fileForm, if_pos h]

theorem UploadHandler_state (s : State) (form : Except String FileHeader) :
    (UploadHandler (healthy false) s form).1 = s ∨
    ∃ fh, form = .ok fh ∧ s.LevelDB.lookup fh.Filename = none ∧
      (UploadHandler (healthy false) s form).1 =
        ⟨s.LevelDB.insert fh.Filename fh.data, s.Cache⟩ := by
  cases form with
  | error e => exact Or.inl rfl
  | ok fh =>
    by_cases h1 : fh.Size > 1024 * 1024 * 10
    · left
      simp only [UploadHandler, if_pos h1]
    · cases hfo : fh.openErr with
      | some e =>
        left
        simp only [UploadHandler, if_neg h1, FileHeader.Open, hfo]
      | none =>
        cases hl : s.LevelDB.lookup fh.Filename with
        | some v =>
          left
          simp only [UploadHandler, if_neg h1, FileHeader.Open, hfo]
          simp [DB.Has, healthy, hl]
        | none =>
          refine Or.inr ⟨fh, rfl, hl, ?_⟩
          simp only [UploadHandler, if_neg h1, FileHeader.Open, hfo]
          simp [DB.Has, DB.Put, healthy, hl]

theorem UploadHandler_ok {s : State} {k : String} {b : Blob}
    (h : (UploadHandler (healthy false) s (fileForm k b)).2 = .JSON 200 { code := 0 }) :
    b.length ≤ 10 * 1024 * 1024 ∧ s.LevelDB.lookup k = none := by
  by_cases hb : b.length ≤ 10 * 1024 * 1024
  · refine ⟨hb, ?_⟩
    cases hl : s.LevelDB.lookup k with
    | none => rfl
    | some v =>
      rw [UploadHandler_exists s k b v hb hl] at h
      simp at h
  · rw [UploadHandler_oversized _ s k b (by omega)] at h
    simp at h

theorem DeleteHandler_state (s : State) (k : String) (hk : k ≠ "") :
    DeleteHandler (healthy false) s k =
      (⟨s.LevelDB.erase k, s.Cache.erase k⟩, .JSON 200 { code := 0 }) := by
  cases hl : s.Cache.lookup k with
  | some v => simp [DeleteHandler, hk, BigCache.Delete, DB.Delete, healthy, hl]
  | none =>
    simp [DeleteHandler, hk, BigCache.Delete, DB.Delete, healthy, hl,
      BigCache.cache_erase_of_lookup_none hl]

theorem DownloadHandler_hit (s : State) (k : String) (b : Blob) (r : Bool) (hk : k ≠ "")
    (hc : s.Cache.lookup k = some b) :
    DownloadHandler (healthy r) s k = (s, delivery k b) := by
  simp [DownloadHandler, hk, BigCache.Get, healthy, hc]

theorem DownloadHandler_miss_found (s : State) (k : String) (b : Blob) (r : Bool) (hk : k ≠ "")
    (hc : s.Cache.lookup k = none) (hd : s.LevelDB.lookup k = some b) :
    DownloadHandler (healthy r) s k =
      (⟨s.LevelDB, (s.Cache.Set (healthy r) k b).1⟩, delivery k b) := by
  simp [DownloadHandler, hk, BigCache.Get, DB.Get, healthy, hc, hd]

theorem DownloadHandler_miss_absent (s : State) (k : String) (r : Bool) (hk : k ≠ "")
    (hc : s.Cache.lookup k = none) (hd : s.LevelDB.lookup k = none) :
    DownloadHandler (healthy r) s k =
      (s, .JSON 200 { code := 1, message := some "not found" }) := by
  simp [DownloadHandler, hk, BigCache.Get, DB.Get, healthy, hc, hd]

theorem DownloadHandler_empty (f : Faults) (s : State) :
    DownloadHandler f s "" = (s, .JSON 400 { code := -1, error := some "filename is null" }) := by
  simp [DownloadHandler]

theorem DownloadHandler_delivers {s : State} (ha : Agree s) {k : String} {b : Blob} (r : Bool)
    (hk : k ≠ "") (hd : s.LevelDB.lookup k = some b) :
    (DownloadHandler (healthy r) s k).2 = delivery k b := by
  cases hc : s.Cache.lookup k with
  | none => rw [DownloadHandler_miss_found s k b r hk hc hd]
  | some v =>
    have hv : some v = some b := (ha k v hc).symm.trans hd
    rw [DownloadHandler_hit s k v r hk hc]
    cases hv
    rfl

theorem delivery_content (filename : String) (content : Blob) :
    (delivery filename content).content? = some content := by
  obtain ⟨t, ht⟩ := exists_isFileType filename
  rw [delivery_eq ht]
  rfl

theorem delivery_ne_JSON (filename : String) (content : Blob) (status : Nat) (body : H) :
    Response.JSON status body ≠ delivery filename content := by
  obtain ⟨t, ht⟩ := exists_isFileType filename
  rw [delivery_eq ht]
  intro h
  cases h

/-! ## Invariants of sequential executions -/

theorem BigCache.lookup_set_cases {c : BigCache} {k x : String} {r : Bool} {v b : Blob}
    (h : (c.Set (healthy r) k v).1.lookup x = some b) :
    (x = k ∧ b = v) ∨ c.lookup x = some b := by
  by_cases hx : x = k
  · subst hx
    cases r
    · rw [BigCache.lookup_set_self] at h
      exact Or.inl ⟨rfl, (Option.some.inj h).symm⟩
    · exact Or.inr (by simpa [BigCache.Set, healthy] using h)
  · rw [BigCache.lookup_set_ne c hx] at h
    exact Or.inr h

theorem DeleteHandler_empty (f : Faults) (s : State) :
    DeleteHandler f s "" = (s, .JSON 400 { code := -1, error := some "filename is null" }) := by
  simp [DeleteHandler]

theorem agree_upload {s : State} (h : Agree s) (form : Except String FileHeader) :
    Agree (UploadHandler (healthy false) s form).1 := by
  rcases UploadHandler_state s form with e | ⟨fh, -, hnone, e⟩
  · rw [e]
    exact h
  · rw [e]
    intro x b hx
    have hd : s.LevelDB.lookup x = some b := h x b hx
    have hne : x ≠ fh.Filename := by
      intro e'
      rw [e', hnone] at hd
      cases hd
    show (s.LevelDB.insert fh.Filename fh.data).lookup x = some b
    rw [DB.lookup_insert_ne _ hne]
    exact hd

theorem agree_download {s : State} (h : Agree s) (k : String) (r : Bool) :
    Agree (DownloadHandler (healthy r) s k).1 := by
  by_cases hk : k = ""
  · subst hk
    rw [DownloadHandler_empty]
    exact h
  · cases hc : s.Cache.lookup k with
    | some v =>
      rw [DownloadHandler_hit s k v r hk hc]
      exact h
    | none =>
      cases hd : s.LevelDB.lookup k with
      | none =>
        rw [DownloadHandler_miss_absent s k r hk hc hd]
        exact h
      | some v =>
        rw [DownloadHandler_miss_found s k v r hk hc hd]
        intro x b hx
        rcases BigCache.lookup_set_cases hx with ⟨e1, e2⟩ | hx'
        · subst e1
          subst e2
          exact hd
        · exact h x b hx'

theorem agree_delete {s : State} (h : Agree s) (k : String) :
    Agree (DeleteHandler (healthy false) s k).1 := by
  by_cases hk : k = ""
  · subst hk
    rw [DeleteHandler_empty]
    exact h
  · rw [DeleteHandler_state s k hk]
    intro x b hx
    have hne : x ≠ k := by
      intro e
      subst e
      have hx' : (s.Cache.erase x).lookup x = some b := hx
      rw [BigCache.cache_lookup_erase_self] at hx'
      cases hx'
    have hx' : (s.Cache.erase k).lookup x = some b := hx
    rw [BigCache.cache_lookup_erase_ne _ hne] at hx'
    show (s.LevelDB.erase k).lookup x = some b
    rw [DB.lookup_erase_ne _ hne]
    exact h x b hx'

theorem agree_evict {s : State} (h : Agree s) (k : String) :
    Agree ⟨s.LevelDB, s.Cache.erase k⟩ := by
  intro x b hx
  have hne : x ≠ k := by
    intro e
    subst e
    have hx' : (s.Cache.erase x).lookup x = some b := hx
    rw [BigCache.cache_lookup_erase_self] at hx'
    cases hx'
  have hx' : (s.Cache.erase k).lookup x = some b := hx
  rw [BigCache.cache_lookup_erase_ne _ hne] at hx'
  exact h x b hx'

theorem agree_exec {s : State} (h : Agree s) (op : Op) : Agree (op.exec s) := by
  cases op with
  | upload form => exact agree_upload h form
  | download k r => exact agree_download h k r
  | delete k => exact agree_delete h k
  | all => exact h
  | evict k => exact agree_evict h k

theorem agree_runOps {s : State} (h : Agree s) (ops : List Op) : Agree (runOps s ops) := by
  induction ops generalizing s with
  | nil => exact h
  | cons op t ih => exact ih (agree_exec h op)

theorem agree_empty : Agree State.empty := by
  intro k b h
  cases h

theorem agree_of_reachable {s : State} (h : Reachable s) : Agree s := by
  obtain ⟨ops, rfl⟩ := h
  exact agree_runOps agree_empty ops

theorem reachable_runOps {s : State} (h : Reachable s) (ops : List Op) :
    Reachable (runOps s ops) := by
  obtain ⟨ops₀, rfl⟩ := h
  exact ⟨ops₀ ++ ops, by simp [runOps, List.foldl_append]⟩

theorem lookup_exec_of_ne_delete {s : State} {k : String} {b : Blob}
    (h : s.LevelDB.lookup k = some b) {op : Op} (hop : op ≠ Op.delete k) :
    (op.exec s).LevelDB.lookup k = some b := by
  cases op with
  | upload form =>
    rcases UploadHandler_state s form with e | ⟨fh, -, hnone, e⟩
    · show (UploadHandler (healthy false) s form).1.LevelDB.lookup k = some b
      rw [e]
      exact h
    · show (UploadHandler (healthy false) s form).1.LevelDB.lookup k = some b
      rw [e]
      have hne : k ≠ fh.Filename := by
        intro e'
        rw [e', hnone] at h
        cases h
      show (s.LevelDB.insert fh.Filename fh.data).lookup k = some b
      rw [DB.lookup_insert_ne _ hne]
      exact h
  | download x r =>
    show (DownloadHandler (healthy r) s x).1.LevelDB.lookup k = some b
    by_cases hx : x = ""
    · subst hx
      rw [DownloadHandler_empty]
      exact h
    · cases hc : s.Cache.lookup x with
      | some v =>
        rw [DownloadHandler_hit s x v r hx hc]
        exact h
      | none =>
        cases hd : s.LevelDB.lookup x with
        | none =>
          rw [DownloadHandler_miss_absent s x r hx hc hd]
          exact h
        | some v =>
          rw [DownloadHandler_miss_found s x v r hx hc hd]
          exact h
  | delete x =>
    show (DeleteHandler (healthy false) s x).1.LevelDB.lookup k = some b
    by_cases hx : x = ""
    · subst hx
      rw [DeleteHandler_empty]
      exact h
    · rw [DeleteHandler_state s x hx]
      have hne : k ≠ x := fun e => hop (e ▸ rfl)
      show (s.LevelDB.erase x).lookup k = some b
      rw [DB.lookup_erase_ne _ hne]
      exact h
  | all => exact h
  | evict x => exact h

theorem lookup_runOps_of_no_delete {s : State} {k : String} {b : Blob}
    (h : s.LevelDB.lookup k = some b) (ops : List Op) (hops : ∀ op ∈ ops, op ≠ Op.delete k) :
    (runOps s ops).LevelDB.lookup k = some b := by
  induction ops generalizing s with
  | nil => exact h
  | cons op t ih =>
    exact ih (lookup_exec_of_ne_delete h (hops op (List.mem_cons_self _ _)))
      (fun o ho => hops o (List.mem_cons_of_mem _ ho))

theorem oversizedBlob_length : 10 * 1024 * 1024 < oversizedBlob.length := by
  unfold oversizedBlob
  rw [List.length_replicate]
  exact Nat.lt_succ_self _

theorem DeleteHandler_absent {s : State} {k : String} (hk : k ≠ "")
    (hc : s.Cache.lookup k = none) (hd : s.LevelDB.lookup k = none) :
    DeleteHandler (healthy false) s k = (s, .JSON 200 { code := 0 }) := by
  rw [DeleteHandler_state s k hk, DB.erase_of_lookup_none hd, BigCache.cache_erase_of_lookup_none hc]

theorem allHandler_eq (s : State) :
    allHandler s = (s, .JSON 200 { code := 0, files := some (s.LevelDB.entries.map Prod.fst) }) := by
  simp [allHandler, scanLoop_eq]

theorem DownloadHandler_cache_error (f : Faults) (s : State) (k : String) (hk : k ≠ "")
    (hf : f.cacheGet = true) :
    DownloadHandler f s k = (s, .JSON 500 { code := -2, error := some "cache error" }) := by
  simp [DownloadHandler, hk, BigCache.Get, hf]

theorem labelContentType_other {t : String} (ht : t ∉ labelTable.map Prod.fst) :
    labelContentType t = "application/octet-stream" := by
  simp only [labelTable, List.map_cons, List.map_nil, List.mem_cons, List.not_mem_nil,
    or_false, not_or] at ht
  obtain ⟨h1, h2, h3, h4, h5, h6, h7, h8, h9, h10⟩ := ht
  simp only [labelContentType, labelTable, List.lookup, beq_eq_false_iff_ne.2 h1,
    beq_eq_false_iff_ne.2 h2, beq_eq_false_iff_ne.2 h3, beq_eq_false_iff_ne.2 h4,
    beq_eq_false_iff_ne.2 h5, beq_eq_false_iff_ne.2 h6, beq_eq_false_iff_ne.2 h7,
    beq_eq_false_iff_ne.2 h8, beq_eq_false_iff_ne.2 h9, beq_eq_false_iff_ne.2 h10,
    Option.getD_none]

theorem delivery_header_contentType {filename t : String} (h : IsFileType filename t)
    (content : Blob) :
    (delivery filename content).header? "Content-Type" = some (labelContentType t) := by
  rw [delivery_eq h]
  simp [Response.header?, List.lookup]

/-! ## Interleaved uploads of one key -/

theorem Call.size_guard_iff (b : Blob) :
    ((b.length : Int) > 1024 * 1024 * 10) ↔ 10 * 1024 * 1024 < b.length := by
  constructor <;> intro h <;> omega

theorem Call.step_start_oversized (k : String) (db : DB) {c : Call} (h : c.phase = .start)
    (hb : 10 * 1024 * 1024 < c.data.length) :
    c.step k db = (db, ⟨c.data, .done tooLargeResponse⟩) := by
  have hg := (Call.size_guard_iff c.data).2 hb
  simp only [Call.step, h, if_pos hg, tooLargeResponse]

theorem Call.step_data (k : String) (db : DB) (c : Call) : ((c.step k db).2).data = c.data := by
  unfold Call.step
  split
  · split
    · rfl
    · split <;> rfl
  · rfl
  · rfl

theorem Call.step_start_absent (k : String) {db : DB} {c : Call} (h : c.phase = .start)
    (hb : c.data.length ≤ 10 * 1024 * 1024) (hl : db.lookup k = none) :
    c.step k db = (db, ⟨c.data, .checked⟩) := by
  have hg : ¬ ((c.data.length : Int) > 1024 * 1024 * 10) :=
    fun h' => absurd ((Call.size_guard_iff c.data).1 h') (by omega)
  simp only [Call.step, h, if_neg hg]
  simp [DB.Has, healthy, hl]

theorem Call.step_start_present (k : String) {db : DB} {c : Call} {v : Blob}
    (h : c.phase = .start) (hb : c.data.length ≤ 10 * 1024 * 1024)
    (hl : db.lookup k = some v) :
    c.step k db = (db, ⟨c.data, .done existsResponse⟩) := by
  have hg : ¬ ((c.data.length : Int) > 1024 * 1024 * 10) :=
    fun h' => absurd ((Call.size_guard_iff c.data).1 h') (by omega)
  simp only [Call.step, h, if_neg hg]
  simp [DB.Has, healthy, hl, existsResponse]

theorem Call.step_checked (k : String) (db : DB) {c : Call} (h : c.phase = .checked) :
    c.step k db = (db.insert k c.data, ⟨c.data, .done okResponse⟩) := by
  simp [Call.step, h, DB.Put, healthy, okResponse]

theorem Call.step_done (k : String) (db : DB) {c : Call} {r : Response}
    (h : c.phase = .done r) : c.step k db = (db, c) := by
  simp [Call.step, h]

theorem Call.step_step_eq_UploadHandler (k : String) (db : DB) (cache : BigCache) (b : Blob) :
    ((Call.step k (Call.step k db ⟨b, .start⟩).1 (Call.step k db ⟨b, .start⟩).2).1,
      (Call.step k (Call.step k db ⟨b, .start⟩).1 (Call.step k db ⟨b, .start⟩).2).2.phase)
    = ((UploadHandler (healthy false) ⟨db, cache⟩ (fileForm k b)).1.LevelDB,
        Phase.done (UploadHandler (healthy false) ⟨db, cache⟩ (fileForm k b)).2) := by
  by_cases hb : 10 * 1024 * 1024 < b.length
  · rw [UploadHandler_oversized _ _ k b hb, Call.step_start_oversized k db rfl hb,
      Call.step_done k db rfl]
    rfl
  · have hb' : b.length ≤ 10 * 1024 * 1024 := by omega
    cases hl : db.lookup k with
    | none =>
      rw [UploadHandler_fresh ⟨db, cache⟩ k b hb' hl,
        @Call.step_start_absent k db ⟨b, .start⟩ rfl hb' hl, Call.step_checked k db rfl]
      rfl
    | some v =>
      rw [UploadHandler_exists ⟨db, cache⟩ k b v hb' hl,
        @Call.step_start_present k db ⟨b, .start⟩ v rfl hb' hl, Call.step_done k db rfl]
      rfl

theorem Sys.step_none {k : String} {sys : Sys} {i : Nat} (h : sys.calls[i]? = none) :
    sys.step k i = sys := by
  simp [Sys.step, h]

theorem Sys.step_some {k : String} {sys : Sys} {i : Nat} {c : Call}
    (h : sys.calls[i]? = some c) :
    sys.step k i = ⟨(c.step k sys.db).1, sys.calls.set i (c.step k sys.db).2⟩ := by
  simp [Sys.step, h]

theorem Sys.get_step_ne (k : String) (sys : Sys) {i j : Nat} (hij : i ≠ j) :
    (sys.step k i).calls[j]? = sys.calls[j]? := by
  cases h : sys.calls[i]? with
  | none => rw [Sys.step_none h]
  | some c =>
    rw [Sys.step_some h]
    exact List.getElem?_set_ne hij

theorem Sys.get_step_self {k : String} {sys : Sys} {i : Nat} {c : Call}
    (h : sys.calls[i]? = some c) :
    (sys.step k i).calls[i]? = some (c.step k sys.db).2 := by
  rw [Sys.step_some h]
  obtain ⟨hlt, -⟩ := List.getElem?_eq_some_iff.1 h
  simp [List.getElem?_set, hlt]

theorem Sys.db_step_some {k : String} {sys : Sys} {i : Nat} {c : Call}
    (h : sys.calls[i]? = some c) : (sys.step k i).db = (c.step k sys.db).1 := by
  rw [Sys.step_some h]

theorem okResponse_ne_existsResponse : okResponse ≠ existsResponse := by decide

theorem Sys.Inv.init (k : String) (db : DB) (blobs : List Blob) (h : db.lookup k = none)
    (hsize : ∀ b ∈ blobs, b.length ≤ 10 * 1024 * 1024) :
    Sys.Inv k blobs (Sys.init db blobs) := by
  have hget : ∀ (j : Nat) (c : Call), (Sys.init db blobs).calls[j]? = some c →
      c.phase = .start := by
    intro j c hc
    simp only [Sys.init, List.getElem?_map] at hc
    cases hb : blobs[j]? with
    | none => simp [hb] at hc
    | some b =>
      simp only [hb, Option.map_some', Option.some.injEq] at hc
      rw [← hc]
  refine ⟨fun j => ?_, fun j c hc => ?_, fun j c hc => Or.inl (hget j c hc),
    fun j c r hc hp => ?_, fun v hv => ?_⟩
  · simp only [Sys.init, List.getElem?_map]
    cases blobs[j]? <;> rfl
  · simp only [Sys.init, List.getElem?_map] at hc
    cases hb : blobs[j]? with
    | none => simp [hb] at hc
    | some b =>
      simp only [hb, Option.map_some', Option.some.injEq] at hc
      rw [← hc]
      exact hsize b (List.mem_iff_getElem?.2 ⟨j, hb⟩)
  · rw [hget j c hc] at hp
    cases hp
  · have hv' : db.lookup k = some v := hv
    rw [h] at hv'
    cases hv'

theorem Sys.Inv.step {k : String} {blobs : List Blob} {sys : Sys} (h : Sys.Inv k blobs sys)
    (i : Nat) : Sys.Inv k blobs (sys.step k i) := by
  cases hi : sys.calls[i]? with
  | none =>
    rw [Sys.step_none hi]
    exact h
  | some c =>
    have hdata : ((c.step k sys.db).2).data = c.data := Call.step_data k sys.db c
    have hb : c.data.length ≤ 10 * 1024 * 1024 := h.sized i c hi
    have hget : ∀ (j : Nat) (c' : Call), (sys.step k i).calls[j]? = some c' →
        (j = i ∧ c' = (c.step k sys.db).2) ∨ (j ≠ i ∧ sys.calls[j]? = some c') := by
      intro j c' hc'
      by_cases hj : j = i
      · subst hj
        rw [Sys.get_step_self hi] at hc'
        exact Or.inl ⟨rfl, (Option.some.inj hc').symm⟩
      · rw [Sys.get_step_ne k sys (Ne.symm hj)] at hc'
        exact Or.inr ⟨hj, hc'⟩
    have hd : ∀ j : Nat, ((sys.step k i).calls[j]?).map Call.data = blobs[j]? := by
      intro j
      by_cases hj : j = i
      · subst hj
        rw [Sys.get_step_self hi, ← h.data j, hi]
        simp [hdata]
      · rw [Sys.get_step_ne k sys (Ne.symm hj)]
        exact h.data j
    have hsz : ∀ (j : Nat) (c' : Call), (sys.step k i).calls[j]? = some c' →
        c'.data.length ≤ 10 * 1024 * 1024 := by
      intro j c' hc'
      rcases hget j c' hc' with ⟨-, e⟩ | ⟨-, e⟩
      · rw [e, hdata]
        exact hb
      · exact h.sized j c' e
    rcases h.phases i c hi with hp | hp | hp | hp
    · -- the call checks the store
      cases hl : sys.db.lookup k with
      | none =>
        have hs := Call.step_start_absent k hp hb hl
        have hdb : (sys.step k i).db = sys.db := by rw [Sys.db_step_some hi, hs]
        refine ⟨hd, hsz, ?_, ?_, ?_⟩
        · intro j c' hc'
          rcases hget j c' hc' with ⟨-, e⟩ | ⟨-, e⟩
          · rw [e, hs]
            exact Or.inr (Or.inl rfl)
          · exact h.phases j c' e
        · intro j c' r hc' hr
          rcases hget j c' hc' with ⟨-, e⟩ | ⟨-, e⟩
          · rw [e, hs] at hr
            cases hr
          · rw [hdb]
            exact h.done_stored j c' r e hr
        · intro v hv
          rw [hdb, hl] at hv
          cases hv
      | some v₀ =>
        have hs := Call.step_start_present k hp hb hl
        have hdb : (sys.step k i).db = sys.db := by rw [Sys.db_step_some hi, hs]
        refine ⟨hd, hsz, ?_, ?_, ?_⟩
        · intro j c' hc'
          rcases hget j c' hc' with ⟨-, e⟩ | ⟨-, e⟩
          · rw [e, hs]
            exact Or.inr (Or.inr (Or.inr rfl))
          · exact h.phases j c' e
        · intro j c' r _ _
          rw [hdb]
          exact ⟨v₀, hl⟩
        · intro v hv
          rw [hdb] at hv
          obtain ⟨j, cj, hj, hok, hdj⟩ := h.stored_ok v hv
          have hji : i ≠ j := by
            intro e
            subst e
            rw [hi] at hj
            cases hj
            rw [hp] at hok
            cases hok
          exact ⟨j, cj, by rw [Sys.get_step_ne k sys hji]; exact hj, hok, hdj⟩
    · -- the call writes its blob
      have hs := Call.step_checked k sys.db hp
      have hdb : (sys.step k i).db = sys.db.insert k c.data := by
        rw [Sys.db_step_some hi, hs]
      refine ⟨hd, hsz, ?_, ?_, ?_⟩
      · intro j c' hc'
        rcases hget j c' hc' with ⟨-, e⟩ | ⟨-, e⟩
        · rw [e, hs]
          exact Or.inr (Or.inr (Or.inl rfl))
        · exact h.phases j c' e
      · intro j c' r _ _
        rw [hdb]
        exact ⟨c.data, DB.lookup_insert_self _ _ _⟩
      · intro v hv
        rw [hdb, DB.lookup_insert_self] at hv
        refine ⟨i, (c.step k sys.db).2, Sys.get_step_self hi, ?_, ?_⟩
        · rw [hs]
        · rw [hs]
          exact Option.some.inj hv
    · -- the call has answered success already
      have hs := Call.step_done k sys.db hp
      have hdb : (sys.step k i).db = sys.db := by rw [Sys.db_step_some hi, hs]
      have hsame : ∀ j : Nat, (sys.step k i).calls[j]? = sys.calls[j]? := by
        intro j
        by_cases hj : j = i
        · subst hj
          rw [Sys.get_step_self hi, hs, hi]
        · exact Sys.get_step_ne k sys (Ne.symm hj)
      refine ⟨hd, hsz, ?_, ?_, ?_⟩
      · intro j c' hc'
        rw [hsame] at hc'
        exact h.phases j c' hc'
      · intro j c' r hc' hr
        rw [hsame] at hc'
        rw [hdb]
        exact h.done_stored j c' r hc' hr
      · intro v hv
        rw [hdb] at hv
        obtain ⟨j, cj, hj, hok, hdj⟩ := h.stored_ok v hv
        exact ⟨j, cj, by rw [hsame]; exact hj, hok, hdj⟩
    · -- the call has answered already-exists already
      have hs := Call.step_done k sys.db hp
      have hdb : (sys.step k i).db = sys.db := by rw [Sys.db_step_some hi, hs]
      have hsame : ∀ j : Nat, (sys.step k i).calls[j]? = sys.calls[j]? := by
        intro j
        by_cases hj : j = i
        · subst hj
          rw [Sys.get_step_self hi, hs, hi]
        · exact Sys.get_step_ne k sys (Ne.symm hj)
      refine ⟨hd, hsz, ?_, ?_, ?_⟩
      · intro j c' hc'
        rw [hsame] at hc'
        exact h.phases j c' hc'
      · intro j c' r hc' hr
        rw [hsame] at hc'
        rw [hdb]
        exact h.done_stored j c' r hc' hr
      · intro v hv
        rw [hdb] at hv
        obtain ⟨j, cj, hj, hok, hdj⟩ := h.stored_ok v hv
        exact ⟨j, cj, by rw [hsame]; exact hj, hok, hdj⟩

theorem Sys.Inv.run {k : String} {blobs : List Blob} {sys : Sys} (h : Sys.Inv k blobs sys)
    (sched : List Nat) : Sys.Inv k blobs (runSchedule k sys sched) := by
  induction sched generalizing sys with
  | nil => exact h
  | cons i t ih => exact ih (h.step i)

theorem runSchedule_serial (k : String) (sys : Sys) (order : List Nat) :
    runSchedule k sys (serial order) = order.foldl (Sys.call k) sys := by
  induction order generalizing sys with
  | nil => rfl
  | cons i t ih =>
    have e : serial (i :: t) = i :: i :: serial t := by
      simp [serial, List.flatMap_cons]
    rw [e]
    exact ih ((sys.step k i).step k i)

theorem Sys.call_get_ne (k : String) (sys : Sys) {i j : Nat} (hij : i ≠ j) :
    (sys.call k i).calls[j]? = sys.calls[j]? := by
  unfold Sys.call
  rw [Sys.get_step_ne k _ hij, Sys.get_step_ne k _ hij]

theorem Sys.call_spec {k : String} {blobs : List Blob} {sys : Sys} (hq : Sys.Quiet k blobs sys)
    {i : Nat} {c : Call} (hi : sys.calls[i]? = some c) :
    ∃ c'' : Call, (sys.call k i).calls[i]? = some c'' ∧ c''.phase ≠ .checked ∧
      c''.phase ≠ .start ∧
      (c''.phase = .done okResponse → ∀ (j : Nat) (cj : Call), j ≠ i →
        sys.calls[j]? = some cj → cj.phase ≠ .done okResponse) := by
  have h1 : (sys.step k i).calls[i]? = some (c.step k sys.db).2 := Sys.get_step_self hi
  have h2 : (sys.call k i).calls[i]? =
      some (((c.step k sys.db).2).step k (sys.step k i).db).2 := Sys.get_step_self h1
  have hb : c.data.length ≤ 10 * 1024 * 1024 := hq.inv.sized i c hi
  rcases hq.inv.phases i c hi with hp | hp | hp | hp
  · cases hl : sys.db.lookup k with
    | none =>
      have hs := Call.step_start_absent k hp hb hl
      rw [hs] at h2
      rw [Call.step_checked k _ rfl] at h2
      refine ⟨_, h2, by simp, by simp, ?_⟩
      intro _ j cj _ hj hok
      obtain ⟨v, hv⟩ := hq.inv.done_stored j cj _ hj hok
      rw [hl] at hv
      cases hv
    | some v =>
      have hs := Call.step_start_present k hp hb hl
      rw [hs] at h2
      rw [Call.step_done k _ rfl] at h2
      refine ⟨_, h2, by simp, by simp, ?_⟩
      intro hok
      exact absurd (Phase.done.inj hok).symm okResponse_ne_existsResponse
  · exact absurd hp (hq.no_checked i c hi)
  · have hs := Call.step_done k sys.db hp
    rw [hs] at h2
    rw [Call.step_done k _ hp] at h2
    refine ⟨c, h2, by simp [hp], by simp [hp], ?_⟩
    intro _ j cj hji hj hok
    exact hji (hq.unique_ok j i cj c hj hi hok hp)
  · have hs := Call.step_done k sys.db hp
    rw [hs] at h2
    rw [Call.step_done k _ hp] at h2
    refine ⟨c, h2, by simp [hp], by simp [hp], ?_⟩
    intro hok
    rw [hp] at hok
    exact absurd (Phase.done.inj hok).symm okResponse_ne_existsResponse

theorem Sys.call_none {k : String} {sys : Sys} {i : Nat} (hi : sys.calls[i]? = none) :
    sys.call k i = sys := by
  unfold Sys.call
  rw [Sys.step_none hi, Sys.step_none hi]

theorem Sys.Quiet.call {k : String} {blobs : List Blob} {sys : Sys}
    (hq : Sys.Quiet k blobs sys) (i : Nat) :
    Sys.Quiet k blobs (sys.call k i) ∧
    (∀ c : Call, (sys.call k i).calls[i]? = some c → c.phase ≠ .start) ∧
    (∀ j : Nat, (∀ c : Call, sys.calls[j]? = some c → c.phase ≠ .start) →
      ∀ c : Call, (sys.call k i).calls[j]? = some c → c.phase ≠ .start) := by
  cases hi : sys.calls[i]? with
  | none =>
    rw [Sys.call_none hi]
    refine ⟨hq, ?_, fun j hj => hj⟩
    intro c hc
    rw [hi] at hc
    cases hc
  | some c =>
    obtain ⟨c'', hget, hnc, hns, hok⟩ := Sys.call_spec hq hi
    have hinv : Sys.Inv k blobs (sys.call k i) := (hq.inv.step i).step i
    refine ⟨⟨hinv, ?_, ?_⟩, ?_, ?_⟩
    · intro j cj hj
      by_cases hji : j = i
      · subst hji
        rw [hget] at hj
        cases hj
        exact hnc
      · rw [Sys.call_get_ne k sys (Ne.symm hji)] at hj
        exact hq.no_checked j cj hj
    · intro j j' cj cj' hj hj' hokj hokj'
      by_cases hji : j = i
      · by_cases hji' : j' = i
        · rw [hji, hji']
        · subst hji
          rw [hget] at hj
          cases hj
          rw [Sys.call_get_ne k sys (Ne.symm hji')] at hj'
          exact absurd hokj' (hok hokj j' cj' hji' hj')
      · by_cases hji' : j' = i
        · subst hji'
          rw [hget] at hj'
          cases hj'
          rw [Sys.call_get_ne k sys (Ne.symm hji)] at hj
          exact absurd hokj (hok hokj' j cj hji hj)
        · rw [Sys.call_get_ne k sys (Ne.symm hji)] at hj
          rw [Sys.call_get_ne k sys (Ne.symm hji')] at hj'
          exact hq.unique_ok j j' cj cj' hj hj' hokj hokj'
    · intro c' hc'
      rw [hget] at hc'
      cases hc'
      exact hns
    · intro j hj c' hc'
      by_cases hji : j = i
      · subst hji
        rw [hget] at hc'
        cases hc'
        exact hns
      · rw [Sys.call_get_ne k sys (Ne.symm hji)] at hc'
        exact hj c' hc'

theorem Sys.Quiet.foldl {k : String} {blobs : List Blob} (order : List Nat) {sys : Sys}
    (hq : Sys.Quiet k blobs sys) :
    Sys.Quiet k blobs (order.foldl (Sys.call k) sys) ∧
    ∀ j : Nat, (j ∈ order ∨ ∀ c : Call, sys.calls[j]? = some c → c.phase ≠ .start) →
      ∀ c : Call, (order.foldl (Sys.call k) sys).calls[j]? = some c → c.phase ≠ .start := by
  induction order generalizing sys with
  | nil =>
    refine ⟨hq, ?_⟩
    intro j hj
    rcases hj with hj | hj
    · cases hj
    · exact hj
  | cons i t ih =>
    obtain ⟨hq', hself, hkeep⟩ := hq.call i
    obtain ⟨hq'', hrest⟩ := ih hq'
    refine ⟨hq'', ?_⟩
    intro j hj
    apply hrest j
    rcases hj with hj | hj
    · rcases List.mem_cons.1 hj with e | hmem
      · subst e
        exact Or.inr hself
      · exact Or.inl hmem
    · exact Or.inr (hkeep j hj)

theorem Sys.Quiet.quiet_init (k : String) (db : DB) (blobs : List Blob)
    (h : db.lookup k = none) (hsize : ∀ b ∈ blobs, b.length ≤ 10 * 1024 * 1024) :
    Sys.Quiet k blobs (Sys.init db blobs) := by
  have hget : ∀ (j : Nat) (c : Call), (Sys.init db blobs).calls[j]? = some c →
      c.phase = .start := by
    intro j c hc
    simp only [Sys.init, List.getElem?_map] at hc
    cases hb : blobs[j]? with
    | none => simp [hb] at hc
    | some b =>
      simp only [hb, Option.map_some', Option.some.injEq] at hc
      rw [← hc]
  refine ⟨Sys.Inv.init k db blobs h hsize, ?_, ?_⟩
  · intro j c hc
    rw [hget j c hc]
    simp
  · intro j j' c c' hc _ hok _
    rw [hget j c hc] at hok
    cases hok

theorem Sys.responses_get (sys : Sys) (j : Nat) {c : Call} {r : Response}
    (hc : sys.calls[j]? = some c) (hp : c.phase = .done r) :
    sys.responses[j]? = some (some r) := by
  simp [Sys.responses, List.getElem?_map, hc, hp]

theorem Sys.Inv.call_of_blob {k : String} {blobs : List Blob} {sys : Sys}
    (h : Sys.Inv k blobs sys) {j : Nat} (hj : j < blobs.length) :
    ∃ c : Call, sys.calls[j]? = some c ∧ blobs[j]? = some c.data := by
  have hd := h.data j
  rw [List.getElem?_eq_getElem hj] at hd
  cases hc : sys.calls[j]? with
  | none =>
    rw [hc] at hd
    cases hd
  | some c =>
    rw [hc] at hd
    refine ⟨c, rfl, ?_⟩
    rw [List.getElem?_eq_getElem hj]
    exact hd.symm

theorem Sys.Inv.blob_of_call {k : String} {blobs : List Blob} {sys : Sys}
    (h : Sys.Inv k blobs sys) {j : Nat} {c : Call} (hc : sys.calls[j]? = some c) :
    blobs[j]? = some c.data := by
  rw [← h.data j, hc]
  rfl

theorem Sys.done_of_allDone {sys : Sys} (h : sys.allDone = true) {j : Nat} {c : Call}
    (hc : sys.calls[j]? = some c) : ∃ r, c.phase = .done r := by
  have hmem : c ∈ sys.calls := List.mem_iff_getElem?.2 ⟨j, hc⟩
  have := List.all_eq_true.1 h c hmem
  cases hp : c.phase with
  | start => simp [hp] at this
  | checked => simp [hp] at this
  | done r => exact ⟨r, rfl⟩

theorem runSchedule_single_oversized (k : String) (db : DB) (b : Blob)
    (hb : 10 * 1024 * 1024 < b.length) :
    runSchedule k (Sys.init db [b]) (serial [0]) = ⟨db, [⟨b, .done tooLargeResponse⟩]⟩ := by
  have e1 : Sys.step k ⟨db, [⟨b, .start⟩]⟩ 0 = ⟨db, [⟨b, .done tooLargeResponse⟩]⟩ := by
    rw [Sys.step_some (show (Sys.mk db [⟨b, .start⟩]).calls[0]? = some ⟨b, .start⟩ from rfl)]
    show (⟨(Call.step k db ⟨b, .start⟩).1,
      List.set [⟨b, .start⟩] 0 (Call.step k db ⟨b, .start⟩).2⟩ : Sys) = _
    rw [Call.step_start_oversized k db rfl hb]
    rfl
  have e2 : Sys.step k ⟨db, [⟨b, .done tooLargeResponse⟩]⟩ 0
      = ⟨db, [⟨b, .done tooLargeResponse⟩]⟩ := by
    rw [Sys.step_some (show (Sys.mk db [⟨b, .done tooLargeResponse⟩]).calls[0]?
      = some ⟨b, .done tooLargeResponse⟩ from rfl)]
    show (⟨(Call.step k db ⟨b, .done tooLargeResponse⟩).1,
      List.set [⟨b, .done tooLargeResponse⟩] 0
        (Call.step k db ⟨b, .done tooLargeResponse⟩).2⟩ : Sys) = _
    rw [Call.step_done k db rfl]
    rfl
  show Sys.step k (Sys.step k ⟨db, [⟨b, .start⟩]⟩ 0) 0 = _
  rw [e1, e2]

/-! ## The claims -/

/-- C1 (round trip). In every state reachable from the two empty stores by a sequential
run of uploads, downloads, deletes, listings and cache evictions, with the stores
answering without IO error: if the durable store has no record for the non-empty key
`k` and `b` has at most 10*1024*1024 bytes, then `UploadHandler(k, b)` answers 200 with
code 0, and the `DownloadHandler(k)` that follows answers with `delivery(k, b)`, whose
body is exactly `b`. -/
theorem upload_then_download_roundtrip (s : State) (hs : Reachable s) (k : String) (b : Blob)
    (setRejected : Bool) (hk : k ≠ "") (hb : b.length ≤ 10 * 1024 * 1024)
    (hfresh : s.LevelDB.lookup k = none) :
    (UploadHandler (healthy false) s (fileForm k b)).2 = .JSON 200 { code := 0 } ∧
    (DownloadHandler (healthy setRejected)
        (UploadHandler (healthy false) s (fileForm k b)).1 k).2 = delivery k b ∧
    (delivery k b).content? = some b := by
  have hr : Reachable (UploadHandler (healthy false) s (fileForm k b)).1 :=
    reachable_runOps hs [Op.upload (fileForm k b)]
  have ha := agree_of_reachable hr
  refine ⟨?_, ?_, delivery_content k b⟩
  · rw [UploadHandler_fresh s k b hb hfresh]
  · refine DownloadHandler_delivers ha setRejected hk ?_
    rw [UploadHandler_fresh s k b hb hfresh]
    exact DB.lookup_insert_self _ _ _

/-- Witness of C1: an upload of `a.txt` and its download, in a state reached by an upload,
a download and an eviction of another key. -/
theorem upload_then_download_roundtrip_witness :
    (UploadHandler (healthy false)
        (runOps State.empty [Op.upload (fileForm "b.png" [9]), Op.download "b.png" false,
          Op.evict "b.png"])
        (fileForm "a.txt" [1, 2, 3])).2 = .JSON 200 { code := 0 } ∧
    (DownloadHandler (healthy true)
        (UploadHandler (healthy false)
          (runOps State.empty [Op.upload (fileForm "b.png" [9]), Op.download "b.png" false,
            Op.evict "b.png"])
          (fileForm "a.txt" [1, 2, 3])).1 "a.txt").2 = delivery "a.txt" [1, 2, 3] ∧
    (delivery "a.txt" [1, 2, 3]).content? = some [1, 2, 3] :=
  upload_then_download_roundtrip _ ⟨_, rfl⟩ "a.txt" [1, 2, 3] true (by decide) (by decide)
    (by decide)

/-- C2, as stated, fails twice.  After `UploadHandler` has stored `a.txt`, a second upload
of `a.txt` with 10*1024*1024+1 bytes is answered by the size guard (400, "file size
exceeds 10MB"), not by the already-exists result.  And after `UploadHandler` has stored a
file under the empty filename, `DownloadHandler` answers 400 "filename is null" for that key
instead of delivering the stored bytes. -/
theorem duplicate_upload_counterexample :
    ((UploadHandler (healthy false) State.empty (fileForm "a.txt" [1])).2
        = .JSON 200 { code := 0 } ∧
      (UploadHandler (healthy false)
          (UploadHandler (healthy false) State.empty (fileForm "a.txt" [1])).1
          (fileForm "a.txt" oversizedBlob)).2
        = .JSON 400 { code := -1, error := some "file size exceeds 10MB" } ∧
      (UploadHandler (healthy false)
          (UploadHandler (healthy false) State.empty (fileForm "a.txt" [1])).1
          (fileForm "a.txt" oversizedBlob)).2
        ≠ .JSON 200 { code := -1, error := some "filename already exist" }) ∧
    ((UploadHandler (healthy false) State.empty (fileForm "" [1])).2
        = .JSON 200 { code := 0 } ∧
      (DownloadHandler (healthy false)
          (UploadHandler (healthy false) State.empty (fileForm "" [1])).1 "").2
        = .JSON 400 { code := -1, error := some "filename is null" } ∧
      (DownloadHandler (healthy false)
          (UploadHandler (healthy false) State.empty (fileForm "" [1])).1 "").2
        ≠ delivery "" [1]) := by
  have h := congrArg Prod.snd
    (UploadHandler_oversized (healthy false)
      (UploadHandler (healthy false) State.empty (fileForm "a.txt" [1])).1 "a.txt"
      oversizedBlob oversizedBlob_length)
  have h0 := congrArg Prod.snd
    (DownloadHandler_empty (healthy false)
      (UploadHandler (healthy false) State.empty (fileForm "" [1])).1)
  refine ⟨⟨by decide, h, ?_⟩, ⟨by decide, h0, ?_⟩⟩
  · intro h'
    have h2 := h.symm.trans h'
    revert h2
    decide
  · intro h'
    exact delivery_ne_JSON _ _ _ _ (h0.symm.trans h')

/-- C2 (duplicate rejection), amended. In a reachable state, with the stores answering
without IO error: once `UploadHandler(k, b1)` has answered code 0, then after any further
steps none of which is `DeleteHandler(k)`, an `UploadHandler(k, b2)` with `b2` of at most
10*1024*1024 bytes answers 200 with code -1 and "filename already exist" and leaves
both stores as they were; with a larger `b2` it answers 400 "file size exceeds 10MB",
again leaving both stores as they were; and for non-empty `k`, `DownloadHandler(k)`
still answers with `delivery(k, b1)`, whose body is `b1`. -/
theorem duplicate_upload_rejected (s : State) (hs : Reachable s) (k : String) (b1 b2 : Blob)
    (hup : (UploadHandler (healthy false) s (fileForm k b1)).2 = .JSON 200 { code := 0 })
    (ops : List Op) (hops : ∀ op ∈ ops, op ≠ Op.delete k) :
    (b2.length ≤ 10 * 1024 * 1024 →
      UploadHandler (healthy false)
          (runOps (UploadHandler (healthy false) s (fileForm k b1)).1 ops) (fileForm k b2)
        = (runOps (UploadHandler (healthy false) s (fileForm k b1)).1 ops,
            .JSON 200 { code := -1, error := some "filename already exist" })) ∧
    (10 * 1024 * 1024 < b2.length →
      UploadHandler (healthy false)
          (runOps (UploadHandler (healthy false) s (fileForm k b1)).1 ops) (fileForm k b2)
        = (runOps (UploadHandler (healthy false) s (fileForm k b1)).1 ops,
            .JSON 400 { code := -1, error := some "file size exceeds 10MB" })) ∧
    (k ≠ "" → ∀ setRejected : Bool,
      (DownloadHandler (healthy setRejected)
          (runOps (UploadHandler (healthy false) s (fileForm k b1)).1 ops) k).2
        = delivery k b1 ∧
      (delivery k b1).content? = some b1) := by
  obtain ⟨hb1, hfresh⟩ := UploadHandler_ok hup
  have hs1 : Reachable (UploadHandler (healthy false) s (fileForm k b1)).1 :=
    reachable_runOps hs [Op.upload (fileForm k b1)]
  have hl1 : (UploadHandler (healthy false) s (fileForm k b1)).1.LevelDB.lookup k = some b1 := by
    rw [UploadHandler_fresh s k b1 hb1 hfresh]
    exact DB.lookup_insert_self _ _ _
  have hl2 := lookup_runOps_of_no_delete hl1 ops hops
  have ha2 := agree_of_reachable (reachable_runOps hs1 ops)
  refine ⟨fun hb2 => UploadHandler_exists _ k b2 b1 hb2 hl2,
    fun hb2 => UploadHandler_oversized _ _ k b2 hb2,
    fun hk r => ⟨DownloadHandler_delivers ha2 r hk hl2, delivery_content k b1⟩⟩

/-- Witness of C2 (amended): two uploads of `a.txt` with a download and an upload of another
key in between. -/
theorem duplicate_upload_rejected_witness :
    UploadHandler (healthy false)
        (runOps (UploadHandler (healthy false) State.empty (fileForm "a.txt" [1])).1
          [Op.download "a.txt" false, Op.upload (fileForm "b" [7])])
        (fileForm "a.txt" [2])
      = (runOps (UploadHandler (healthy false) State.empty (fileForm "a.txt" [1])).1
          [Op.download "a.txt" false, Op.upload (fileForm "b" [7])],
          .JSON 200 { code := -1, error := some "filename already exist" }) ∧
    (DownloadHandler (healthy false)
        (runOps (UploadHandler (healthy false) State.empty (fileForm "a.txt" [1])).1
          [Op.download "a.txt" false, Op.upload (fileForm "b" [7])]) "a.txt").2
      = delivery "a.txt" [1] :=
  have h := duplicate_upload_rejected State.empty ⟨[], rfl⟩ "a.txt" [1] [2] (by decide)
    [Op.download "a.txt" false, Op.upload (fileForm "b" [7])]
    (by intro op hop; simp at hop; rcases hop with rfl | rfl <;> simp)
  ⟨h.1 (by decide), (h.2.2 (by decide) false).1⟩

/-- C3 (delete effectiveness and idempotence). From any state, for every non-empty key `k`
and blob `b`, with the stores answering without IO error: after `UploadHandler(k, b)`, any
number of `DownloadHandler(k)` calls and then `DeleteHandler(k)`, the delete answers 200 with
code 0, neither the cache nor the durable store holds `k`, `DownloadHandler(k)` answers 200
with code 1 "not found" and changes nothing, and a second `DeleteHandler(k)` answers 200 with
code 0 and leaves both stores as they were. -/
theorem delete_effective_idempotent (s : State) (k : String) (b : Blob) (rs : List Bool)
    (hk : k ≠ "") :
    (DeleteHandler (healthy false) (uploadThenDownloads s k b rs) k).2
      = .JSON 200 { code := 0 } ∧
    (DeleteHandler (healthy false) (uploadThenDownloads s k b rs) k).1.Cache.lookup k = none ∧
    (DeleteHandler (healthy false) (uploadThenDownloads s k b rs) k).1.LevelDB.lookup k = none ∧
    (∀ setRejected : Bool,
      DownloadHandler (healthy setRejected)
          (DeleteHandler (healthy false) (uploadThenDownloads s k b rs) k).1 k
        = ((DeleteHandler (healthy false) (uploadThenDownloads s k b rs) k).1,
            .JSON 200 { code := 1, message := some "not found" })) ∧
    DeleteHandler (healthy false)
        (DeleteHandler (healthy false) (uploadThenDownloads s k b rs) k).1 k
      = ((DeleteHandler (healthy false) (uploadThenDownloads s k b rs) k).1,
          .JSON 200 { code := 0 }) := by
  rw [DeleteHandler_state _ k hk]
  have hc : (BigCache.erase (uploadThenDownloads s k b rs).Cache k).lookup k = none :=
    BigCache.cache_lookup_erase_self _ _
  have hd : (DB.erase (uploadThenDownloads s k b rs).LevelDB k).lookup k = none :=
    DB.lookup_erase_self _ _
  exact ⟨rfl, hc, hd, fun r => DownloadHandler_miss_absent _ k r hk hc hd,
    DeleteHandler_absent hk hc hd⟩

/-- Witness of C3: upload of `a.txt`, two downloads (the cache then holds it), delete. -/
theorem delete_effective_idempotent_witness :
    (DeleteHandler (healthy false)
        (uploadThenDownloads State.empty "a.txt" [1, 2] [false, false]) "a.txt").2
      = .JSON 200 { code := 0 } ∧
    (uploadThenDownloads State.empty "a.txt" [1, 2] [false, false]).Cache.lookup "a.txt"
      = some [1, 2] ∧
    (DeleteHandler (healthy false)
        (uploadThenDownloads State.empty "a.txt" [1, 2] [false, false]) "a.txt").1.Cache.lookup
        "a.txt" = none :=
  have h := delete_effective_idempotent State.empty "a.txt" [1, 2] [false, false] (by decide)
  ⟨h.1, by decide, h.2.1⟩

/-- C4 (cache/store agreement). In every state reachable from the two empty stores by a
sequential run of uploads, downloads, deletes, listings and cache evictions, with the stores
answering without IO error, every cache entry `(k, b)` has a durable record for `k` with
the same bytes `b`; so the cache holds no key the durable store lacks. -/
theorem cache_agrees_with_store (s : State) (hs : Reachable s) :
    (∀ k b, s.Cache.lookup k = some b → s.LevelDB.lookup k = some b) ∧
    (∀ k, s.LevelDB.lookup k = none → s.Cache.lookup k = none) := by
  have ha := agree_of_reachable hs
  refine ⟨ha, fun k hd => ?_⟩
  cases hc : s.Cache.lookup k with
  | none => rfl
  | some v =>
    rw [ha k v hc] at hd
    cases hd

/-- Witness of C4: after an upload and a download the cache holds the entry, and the durable
store holds the same bytes. -/
theorem cache_agrees_with_store_witness :
    (runOps State.empty [Op.upload (fileForm "a.txt" [1, 2]), Op.download "a.txt" false]
      ).Cache.lookup "a.txt" = some [1, 2] ∧
    (runOps State.empty [Op.upload (fileForm "a.txt" [1, 2]), Op.download "a.txt" false]
      ).LevelDB.lookup "a.txt" = some [1, 2] :=
  ⟨by decide, (cache_agrees_with_store _ ⟨_, rfl⟩).1 "a.txt" [1, 2] (by decide)⟩

/-- C5 (cache transparency). In every reachable state and for every key `k`, with the
stores answering without IO error, `DownloadHandler(k)` answers the same after the cache
entry for `k` has been removed as it does with the cache as it is, whether or not
`Cache.Set` accepts the entry. -/
theorem download_ignores_eviction (s : State) (hs : Reachable s) (k : String)
    (r r' : Bool) :
    (DownloadHandler (healthy r) ⟨s.LevelDB, s.Cache.erase k⟩ k).2
      = (DownloadHandler (healthy r') s k).2 := by
  have ha := agree_of_reachable hs
  by_cases hk : k = ""
  · subst hk
    rw [DownloadHandler_empty, DownloadHandler_empty]
  · have hc : (⟨s.LevelDB, s.Cache.erase k⟩ : State).Cache.lookup k = none :=
      BigCache.cache_lookup_erase_self _ _
    cases hd : s.LevelDB.lookup k with
    | some v =>
      rw [DownloadHandler_miss_found _ k v r hk hc hd, DownloadHandler_delivers ha r' hk hd]
    | none =>
      have hc' : s.Cache.lookup k = none := by
        cases hc' : s.Cache.lookup k with
        | none => rfl
        | some v =>
          rw [ha k v hc'] at hd
          cases hd
      rw [DownloadHandler_miss_absent _ k r hk hc hd, DownloadHandler_miss_absent s k r' hk hc' hd]

/-- Witness of C5: with `a.txt` cached, the download answers as it does after eviction. -/
theorem download_ignores_eviction_witness :
    (runOps State.empty [Op.upload (fileForm "a.txt" [1, 2]), Op.download "a.txt" false]
      ).Cache.lookup "a.txt" = some [1, 2] ∧
    (DownloadHandler (healthy false)
        ⟨(runOps State.empty [Op.upload (fileForm "a.txt" [1, 2]),
            Op.download "a.txt" false]).LevelDB,
          (runOps State.empty [Op.upload (fileForm "a.txt" [1, 2]),
            Op.download "a.txt" false]).Cache.erase "a.txt"⟩ "a.txt").2
      = (DownloadHandler (healthy false)
          (runOps State.empty [Op.upload (fileForm "a.txt" [1, 2]),
            Op.download "a.txt" false]) "a.txt").2 :=
  ⟨by decide, download_ignores_eviction _ ⟨_, rfl⟩ "a.txt" false false⟩

/-- C6 (list completeness). In every state the `GET /all` handler changes nothing and answers
200 with code 0 and the keys read off the durable store in its iteration order; these are
exactly the keys that have a durable record, each once, in ascending key order; the answer
is the same whatever the cache holds; and after uploads of `a`, `b`, `c` into an empty
durable store followed by the delete of `b`, the answer lists exactly `a`, `c`. -/
theorem all_lists_durable_keys (s : State) :
    (allHandler s).1 = s ∧
    (allHandler s).2
      = .JSON 200 { code := 0, files := some (s.LevelDB.entries.map Prod.fst) } ∧
    (s.LevelDB.entries.map Prod.fst).Nodup ∧
    (s.LevelDB.entries.map Prod.fst).Pairwise keyLt ∧
    (∀ k, k ∈ s.LevelDB.entries.map Prod.fst ↔ ∃ v, s.LevelDB.lookup k = some v) ∧
    (∀ c : BigCache, (allHandler ⟨s.LevelDB, c⟩).2 = (allHandler s).2) ∧
    (∀ (c : BigCache) (ba bb bc : Blob), ba.length ≤ 10 * 1024 * 1024 →
      bb.length ≤ 10 * 1024 * 1024 → bc.length ≤ 10 * 1024 * 1024 →
      (allHandler (runOps ⟨DB.empty, c⟩
          [Op.upload (fileForm "a" ba), Op.upload (fileForm "b" bb),
            Op.upload (fileForm "c" bc), Op.delete "b"])).2
        = .JSON 200 { code := 0, files := some ["a", "c"] }) := by
  refine ⟨by rw [allHandler_eq], by rw [allHandler_eq], s.LevelDB.keys_nodup, s.LevelDB.ascending,
    fun k => mem_keys_iff_lookupKV k _, fun c => by rw [allHandler_eq, allHandler_eq], ?_⟩
  intro c ba bb bc ha hb hc
  have hab : ("b" : String) ≠ "a" := by decide
  have hac : ("c" : String) ≠ "a" := by decide
  have hbc : ("c" : String) ≠ "b" := by decide
  have hb0 : ("b" : String) ≠ "" := by decide
  have l1 : ¬ keyLt "b" "a" := by decide
  have l2 : ¬ keyLt "c" "a" := by decide
  have l3 : ¬ keyLt "c" "b" := by decide
  have e1 : (UploadHandler (healthy false) ⟨DB.empty, c⟩ (fileForm "a" ba))
      = (⟨DB.empty.insert "a" ba, c⟩, .JSON 200 { code := 0 }) :=
    UploadHandler_fresh _ _ _ ha rfl
  have e2 : (UploadHandler (healthy false) ⟨DB.empty.insert "a" ba, c⟩ (fileForm "b" bb))
      = (⟨(DB.empty.insert "a" ba).insert "b" bb, c⟩, .JSON 200 { code := 0 }) :=
    UploadHandler_fresh _ _ _ hb (by
      show (DB.empty.insert "a" ba).lookup "b" = none
      rw [DB.lookup_insert_ne _ hab]
      rfl)
  have e3 : (UploadHandler (healthy false) ⟨(DB.empty.insert "a" ba).insert "b" bb, c⟩
        (fileForm "c" bc))
      = (⟨((DB.empty.insert "a" ba).insert "b" bb).insert "c" bc, c⟩,
          .JSON 200 { code := 0 }) :=
    UploadHandler_fresh _ _ _ hc (by
      show ((DB.empty.insert "a" ba).insert "b" bb).lookup "c" = none
      rw [DB.lookup_insert_ne _ hbc, DB.lookup_insert_ne _ hac]
      rfl)
  simp only [runOps, List.foldl, Op.exec, e1, e2, e3, DeleteHandler_state _ _ hb0, allHandler_eq]
  simp [DB.insert, DB.erase, DB.empty, insertKV, eraseKV, hab, hac, hbc, l1, l2, l3]

/-- Witness of C6: the listing after uploads of `c`, `a`, `b` and the delete of `b`, with `a`
held by the cache. -/
theorem all_lists_durable_keys_witness :
    (allHandler (runOps State.empty
        [Op.upload (fileForm "c" [3]), Op.upload (fileForm "a" [1]),
          Op.upload (fileForm "b" [2]), Op.download "a" false, Op.delete "b"])).2
      = .JSON 200 { code := 0, files := some ["a", "c"] } ∧
    (allHandler (runOps ⟨DB.empty, BigCache.empty⟩
        [Op.upload (fileForm "a" [1]), Op.upload (fileForm "b" [2]),
          Op.upload (fileForm "c" [3]), Op.delete "b"])).2
      = .JSON 200 { code := 0, files := some ["a", "c"] } :=
  ⟨by decide,
    (all_lists_durable_keys State.empty).2.2.2.2.2.2 BigCache.empty [1] [2] [3]
      (by decide) (by decide) (by decide)⟩

/-- C7, as stated, fails: with a durable record for `a.txt` and `Cache.Get` failing with an
error other than a miss, `DownloadHandler` answers 500 with code -2 "cache error" instead of
delivering the record. -/
theorem download_cache_error_counterexample :
    (⟨DB.empty.insert "a.txt" [1, 2], BigCache.empty⟩ : State).LevelDB.lookup "a.txt"
      = some [1, 2] ∧
    (DownloadHandler { cacheGet := true } ⟨DB.empty.insert "a.txt" [1, 2], BigCache.empty⟩
        "a.txt").2 = .JSON 500 { code := -2, error := some "cache error" } ∧
    (DownloadHandler { cacheGet := true } ⟨DB.empty.insert "a.txt" [1, 2], BigCache.empty⟩
        "a.txt").2 ≠ delivery "a.txt" [1, 2] := by
  have h := DownloadHandler_cache_error { cacheGet := true }
    ⟨DB.empty.insert "a.txt" [1, 2], BigCache.empty⟩ "a.txt" (by decide) rfl
  refine ⟨by decide, by rw [h], ?_⟩
  rw [h]
  exact delivery_ne_JSON _ _ _ _

/-- C7 (cache errors), amended. For every non-empty key `k`: when `Cache.Get` fails with an
error other than a miss, `DownloadHandler(k)` answers 500 with code -2 "cache error" and
changes nothing, whatever the durable store holds; only a miss falls through to the durable
store, and then, with `LevelDB.Get` answering without IO error, it delivers the bytes of the
durable record if there is one and answers 200 with code 1 "not found" otherwise. -/
theorem download_cache_error_surfaces (f : Faults) (s : State) (k : String) (hk : k ≠ "") :
    (f.cacheGet = true →
      DownloadHandler f s k = (s, .JSON 500 { code := -2, error := some "cache error" })) ∧
    (f.cacheGet = false → s.Cache.lookup k = none → f.dbGet = false →
      (∀ b, s.LevelDB.lookup k = some b →
        (DownloadHandler f s k).2 = delivery k b ∧ (delivery k b).content? = some b) ∧
      (s.LevelDB.lookup k = none →
        DownloadHandler f s k = (s, .JSON 200 { code := 1, message := some "not found" }))) := by
  refine ⟨DownloadHandler_cache_error f s k hk, fun hg hc hd => ⟨fun b hb => ⟨?_, ?_⟩, fun hb => ?_⟩⟩
  · simp [DownloadHandler, hk, BigCache.Get, DB.Get, hg, hc, hd, hb]
  · exact delivery_content k b
  · simp [DownloadHandler, hk, BigCache.Get, DB.Get, hg, hc, hd, hb]

/-- Witness of C7 (amended): the cache error on a stored key, and the miss that falls
through to the durable record. -/
theorem download_cache_error_surfaces_witness :
    DownloadHandler { cacheGet := true } ⟨DB.empty.insert "a.txt" [1, 2], BigCache.empty⟩ "a.txt"
      = (⟨DB.empty.insert "a.txt" [1, 2], BigCache.empty⟩,
          .JSON 500 { code := -2, error := some "cache error" }) ∧
    (DownloadHandler { } ⟨DB.empty.insert "a.txt" [1, 2], BigCache.empty⟩ "a.txt").2
      = delivery "a.txt" [1, 2] :=
  ⟨(download_cache_error_surfaces { cacheGet := true }
      ⟨DB.empty.insert "a.txt" [1, 2], BigCache.empty⟩ "a.txt" (by decide)).1 rfl,
    (((download_cache_error_surfaces { } ⟨DB.empty.insert "a.txt" [1, 2], BigCache.empty⟩
      "a.txt" (by decide)).2 rfl rfl rfl).1 [1, 2] (by decide)).1⟩

/-- C8, on the code: `UploadHandler` drops the errors of `LevelDB.Has` and `LevelDB.Put`.
With `Put` failing on an empty store it answers 200 with code 0 although no record is
written; with `Has` failing on a store that holds `a.txt` it answers 200 with code 0 and
overwrites the record. -/
theorem upload_swallows_store_errors :
    UploadHandler { dbPut := true } State.empty (fileForm "a.txt" [1, 2])
      = (State.empty, .JSON 200 { code := 0 }) ∧
    (UploadHandler { dbPut := true } State.empty (fileForm "a.txt" [1, 2])).1.LevelDB.lookup
      "a.txt" = none ∧
    (UploadHandler { dbHas := true } ⟨DB.empty.insert "a.txt" [1, 2], BigCache.empty⟩
      (fileForm "a.txt" [9])).2 = .JSON 200 { code := 0 } ∧
    (UploadHandler { dbHas := true } ⟨DB.empty.insert "a.txt" [1, 2], BigCache.empty⟩
      (fileForm "a.txt" [9])).1.LevelDB.lookup "a.txt" = some [9] := by
  refine ⟨by decide, by decide, by decide, by decide⟩

/-- C10 (`delivery`). For every filename, the empty one included, the index `len(s)-1` into
`strings.Split(filename, ".")` is in range and the piece found there is the text after the
last `.` of the filename, or the whole filename when it has no `.`; the Content-Type header
is the label's entry for that text: `jpg`, `jpe`, `jpeg` give `image/jpeg`, `png` gives
`image/png`, `img` gives `application/x-img`, `gif` gives `image/gif`, `txt` gives
`text/plain`, `zip` gives `application/zip`, `pbf` gives `application/pdf`, `word` gives
`application/msword`, and every other text, `pdf` and `JPG` among them, gives
`application/octet-stream`. -/
theorem delivery_content_type (filename : String) (content : Blob) :
    (strings.Split filename '.').length - 1 < (strings.Split filename '.').length ∧
    (∃ t, IsFileType filename t ∧
      (strings.Split filename '.')[(strings.Split filename '.').length - 1]? = some t) ∧
    (∀ t, IsFileType filename t →
      (delivery filename content).header? "Content-Type" = some (labelContentType t)) ∧
    (∀ t, t ∉ ["jpg", "jpe", "jpeg", "png", "img", "gif", "txt", "zip", "pbf", "word"] →
      labelContentType t = "application/octet-stream") ∧
    (labelContentType "jpg" = "image/jpeg" ∧ labelContentType "jpe" = "image/jpeg" ∧
      labelContentType "jpeg" = "image/jpeg" ∧ labelContentType "png" = "image/png" ∧
      labelContentType "img" = "application/x-img" ∧ labelContentType "gif" = "image/gif" ∧
      labelContentType "txt" = "text/plain" ∧ labelContentType "zip" = "application/zip" ∧
      labelContentType "pbf" = "application/pdf" ∧
      labelContentType "word" = "application/msword") ∧
    (labelContentType "pdf" = "application/octet-stream" ∧
      labelContentType "JPG" = "application/octet-stream") := by
  refine ⟨Nat.sub_lt (split_length_pos filename) Nat.one_pos, ?_,
    fun t ht => delivery_header_contentType ht content, fun t ht => labelContentType_other ht,
    ⟨rfl, rfl, rfl, rfl, rfl, rfl, rfl, rfl, rfl, rfl⟩, ⟨rfl, rfl⟩⟩
  obtain ⟨t, ht⟩ := exists_isFileType filename
  exact ⟨t, ht, split_last_of_isFileType ht⟩

/-- Witness of C10: `archive.tar.zip` is labelled by `zip`, `report.pdf` falls to the default,
and the empty filename is labelled by the empty text. -/
theorem delivery_content_type_witness :
    (delivery "archive.tar.zip" [1]).header? "Content-Type" = some "application/zip" ∧
    (delivery "report.pdf" [1]).header? "Content-Type" = some "application/octet-stream" ∧
    (delivery "" [1]).header? "Content-Type" = some "application/octet-stream" :=
  ⟨(delivery_content_type "archive.tar.zip" [1]).2.2.1 "zip"
      (Or.inl ⟨"archive.tar", by decide, by decide⟩),
    (delivery_content_type "report.pdf" [1]).2.2.1 "pdf"
      (Or.inl ⟨"report", by decide, by decide⟩),
    (delivery_content_type "" [1]).2.2.1 "" (Or.inr ⟨by decide, rfl⟩)⟩

/-- C9, as stated, fails twice.  With two uploads of `a.txt` and both checks scheduled
before both writes, both calls answer success and the second write replaces the blob of the
first.  And a single upload of `a.txt` with 10*1024*1024+1 bytes is answered by the size
guard (400, "file size exceeds 10MB") and stores nothing, so no call answers success. -/
theorem concurrent_uploads_counterexample :
    (DB.empty.lookup "a.txt" = none ∧
      (runSchedule "a.txt" (Sys.init DB.empty [[1], [2]]) [0, 1, 0, 1]).allDone = true ∧
      (runSchedule "a.txt" (Sys.init DB.empty [[1], [2]]) [0, 1, 0, 1]).responses
        = [some okResponse, some okResponse] ∧
      (runSchedule "a.txt" (Sys.init DB.empty [[1], [2]]) [0, 1, 0]).db.lookup "a.txt"
        = some [1] ∧
      (runSchedule "a.txt" (Sys.init DB.empty [[1], [2]]) [0, 1, 0, 1]).db.lookup "a.txt"
        = some [2]) ∧
    ((runSchedule "a.txt" (Sys.init DB.empty [oversizedBlob]) (serial [0])).allDone = true ∧
      (runSchedule "a.txt" (Sys.init DB.empty [oversizedBlob]) (serial [0])).responses
        = [some tooLargeResponse] ∧
      tooLargeResponse ≠ okResponse ∧
      (runSchedule "a.txt" (Sys.init DB.empty [oversizedBlob]) (serial [0])).db.lookup "a.txt"
        = none) := by
  have e := runSchedule_single_oversized "a.txt" DB.empty oversizedBlob oversizedBlob_length
  refine ⟨⟨by decide, by decide, by decide, by decide, by decide⟩, ?_, ?_, by decide, ?_⟩
  · rw [e]
    rfl
  · rw [e]
    rfl
  · rw [e]
    rfl

/-- C9 (exclusive create), amended. For a key `k` without durable record and `N ≥ 1`
`UploadHandler(k, *)` calls, each with a blob of at most 10*1024*1024 bytes, with the store
answering without IO error: in every interleaving of their check and write steps in which
all calls answer, every call answers success or already-exists, at least one answers
success, and the record stored in the end is the blob of a call that answered success; when
the calls run one after another (each write right after its own check), exactly one call
answers success, the other `N-1` answer already-exists, and the stored record is the blob of
the successful call. -/
theorem concurrent_uploads (k : String) (db : DB) (blobs : List Blob)
    (hfresh : db.lookup k = none) (hN : blobs ≠ [])
    (hsize : ∀ b ∈ blobs, b.length ≤ 10 * 1024 * 1024) :
    (∀ sched : List Nat, (runSchedule k (Sys.init db blobs) sched).allDone = true →
      (∀ r ∈ (runSchedule k (Sys.init db blobs) sched).responses,
        r = some okResponse ∨ r = some existsResponse) ∧
      ∃ (j : Nat) (b : Blob), blobs[j]? = some b ∧
        (runSchedule k (Sys.init db blobs) sched).responses[j]? = some (some okResponse) ∧
        (runSchedule k (Sys.init db blobs) sched).db.lookup k = some b) ∧
    (∀ order : List Nat, (∀ i : Nat, i < blobs.length → i ∈ order) →
      ∃ (j : Nat) (b : Blob), blobs[j]? = some b ∧
        (runSchedule k (Sys.init db blobs) (serial order)).db.lookup k = some b ∧
        ∀ i : Nat, i < blobs.length →
          (runSchedule k (Sys.init db blobs) (serial order)).responses[i]?
            = some (some (if i = j then okResponse else existsResponse))) := by
  have h0 : 0 < blobs.length := List.length_pos.2 hN
  refine ⟨fun sched hdone => ?_, fun order hall => ?_⟩
  · have hinv := (Sys.Inv.init k db blobs hfresh hsize).run sched
    refine ⟨?_, ?_⟩
    · intro r hr
      simp only [Sys.responses, List.mem_map] at hr
      obtain ⟨c, hc, rfl⟩ := hr
      obtain ⟨j, hj⟩ := List.mem_iff_getElem?.1 hc
      obtain ⟨r', hr'⟩ := Sys.done_of_allDone hdone hj
      rcases hinv.phases j c hj with hp | hp | hp | hp
      · rw [hp] at hr'
        cases hr'
      · rw [hp] at hr'
        cases hr'
      · left
        simp [hp]
      · right
        simp [hp]
    · obtain ⟨c0, hc0, -⟩ := hinv.call_of_blob h0
      obtain ⟨r0, hr0⟩ := Sys.done_of_allDone hdone hc0
      obtain ⟨v, hv⟩ := hinv.done_stored 0 c0 r0 hc0 hr0
      obtain ⟨j, c, hc, hok, hdv⟩ := hinv.stored_ok v hv
      refine ⟨j, v, ?_, Sys.responses_get _ j hc hok, hv⟩
      rw [hinv.blob_of_call hc, hdv]
  · rw [runSchedule_serial]
    obtain ⟨hq, hns⟩ := Sys.Quiet.foldl order (Sys.Quiet.quiet_init k db blobs hfresh hsize)
    have hdone : ∀ (i : Nat) (c : Call), i < blobs.length →
        (order.foldl (Sys.call k) (Sys.init db blobs)).calls[i]? = some c →
        c.phase = .done okResponse ∨ c.phase = .done existsResponse := by
      intro i c hi hc
      rcases hq.inv.phases i c hc with hp | hp | hp | hp
      · exact absurd hp (hns i (Or.inl (hall i hi)) c hc)
      · exact absurd hp (hq.no_checked i c hc)
      · exact Or.inl hp
      · exact Or.inr hp
    obtain ⟨c0, hc0, -⟩ := hq.inv.call_of_blob h0
    have hst : ∃ v, (order.foldl (Sys.call k) (Sys.init db blobs)).db.lookup k = some v := by
      rcases hdone 0 c0 h0 hc0 with hp | hp
      · exact hq.inv.done_stored 0 c0 _ hc0 hp
      · exact hq.inv.done_stored 0 c0 _ hc0 hp
    obtain ⟨v, hv⟩ := hst
    obtain ⟨j, c, hc, hok, hdv⟩ := hq.inv.stored_ok v hv
    refine ⟨j, v, ?_, hv, ?_⟩
    · rw [hq.inv.blob_of_call hc, hdv]
    · intro i hi
      obtain ⟨ci, hci, -⟩ := hq.inv.call_of_blob hi
      by_cases hij : i = j
      · subst hij
        rw [hc] at hci
        cases hci
        rw [if_pos rfl]
        exact Sys.responses_get _ i hc hok
      · rw [if_neg hij]
        rcases hdone i ci hi hci with hp | hp
        · exact absurd (hq.unique_ok i j ci c hci hc hp hok) hij
        · exact Sys.responses_get _ i hci hp

/-- Witness of C9 (amended): three uploads of `a.txt`; interleaved, two of them answer
success and the last write stays; run one after another in the order 2, 0, 1, only
request 2 answers success and its blob is stored. -/
theorem concurrent_uploads_witness :
    (runSchedule "a.txt" (Sys.init DB.empty [[1], [2], [3]]) [0, 1, 0, 2, 1]).responses
      = [some okResponse, some okResponse, some existsResponse] ∧
    (runSchedule "a.txt" (Sys.init DB.empty [[1], [2], [3]]) (serial [2, 0, 1])).responses
      = [some existsResponse, some existsResponse, some okResponse] ∧
    (∃ (j : Nat) (b : Blob), [[1], [2], [3]][j]? = some b ∧
      (runSchedule "a.txt" (Sys.init DB.empty [[1], [2], [3]])
        (serial [2, 0, 1])).db.lookup "a.txt" = some b ∧
      ∀ i : Nat, i < 3 →
        (runSchedule "a.txt" (Sys.init DB.empty [[1], [2], [3]])
          (serial [2, 0, 1])).responses[i]?
          = some (some (if i = j then okResponse else existsResponse))) :=
  ⟨by decide, by decide,
    (concurrent_uploads "a.txt" DB.empty [[1], [2], [3]] (by decide) (by decide)
      (by decide)).2 [2, 0, 1] (by decide)⟩

end Cdn
